import Mathlib

/-!
# Verification of the Background DS1820 sensing library

Shallow embedding of the two source files of the repository:

* `DS1820_Demo/AsyncTemperatures.h` — a cooperative bytecode interpreter
  (`AsyncTemperatureReader`) that drives the 1-wire protocol in short
  timeslices pumped by a timer interrupt (namespace `Async` below);
* `Dallas_Discovery/SensorDiscovery.h` — a synchronous binary-tree device
  enumeration over the same bus (namespace `Disc` below).

Modelling conventions:

* Machine bytes are `Nat`; wherever the C++ code performs 8-bit wraparound
  arithmetic that matters (`--bitsToGo`, `bitPos++`, `--topOfStack`) the
  model computes `% 256` explicitly.
* The shared electrical bus is an oracle `bus : Nat → Bool` giving the level
  seen by the n-th `sampleBus()` call of the run (`false` = line low,
  `true` = line high); each state carries `sampleCount`, the number of
  samples taken so far, and a `trace` of electrical events (newest first).
* Diagnostics in the source (Serial prints, the stack snapshot and
  `stackHighTide` bookkeeping, `toggleDebugLine`, `digitalWrite(debugPin)`)
  have no protocol effect and are modelled only by the `alert` flag, which
  records every `digitalWrite(LED_ALERT, HIGH)` call.
* The instruction stack `theCode[stackSize]` with its `topOfStack` index is
  modelled as a `List Nat` whose head is `theCode[topOfStack - 1]`;
  a push onto a full stack (`topOfStack >= stackSize`) drops the byte and
  raises `alert`, exactly as `push` in the source.  `pop` on an empty stack
  would read out of bounds in the source; the model returns `0` there (no
  state examined by the claims ever does this).  The raw index/byte-level
  behaviour of `push`/`pop` needed by the stack-safety claim is modelled
  separately and faithfully in namespace `Stk` at the bottom of the
  definitions section.
* `getRaw`/`getTempC` (family-specific temperature decoding, floating
  point) and the hardware timer setup in `begin()` are outside every claim
  and are not modelled.
-/

namespace Async

/-- One observable electrical/timing action on the 1-wire bus:
`pullBusLow()`, `releaseBus()`, `sampleBus()` (with the level it saw) and
the inline `_delay_us(n)` pauses. -/
inductive Ev where
| lowEv : Ev
| releaseEv : Ev
| sampleEv : Bool → Ev
| delayEv : Nat → Ev
deriving DecidableEq, Repr

/-- `const int stackSize = 20;` -/
def stackSize : Nat := 20

-- The opcodes of the interpreter (same numbering as the source).
def BusLow : Nat := 1
def ReadRemainingBits : Nat := 2
def SendRemainingBits : Nat := 3
def SendRemainingIDBytes : Nat := 4
def WaitForBusRelease : Nat := 5
def BusRelease : Nat := 6
def ClearBusyStatus : Nat := 7
def BusSample : Nat := 8
def TestTimings : Nat := 9
def ReadScratchPad : Nat := 10
def StartIDSend : Nat := 11
def Reset : Nat := 12
def Yield : Nat := 13

-- Status bits.
def Success : Nat := 0x00
def StillBusy : Nat := 0x01
def NoDeviceOnBus : Nat := 0x02
def DevicesAreBusy : Nat := 0x04

-- OneWire command bytes used here.
def STARTCONVO : Nat := 0x44
def READSCRATCH : Nat := 0xBE
def SELECTDEVICE : Nat := 0x55
def SKIPROMWILDCARD : Nat := 0xCC

-- The microsecond-to-TIMER2-tick calibration table.
def Micros55 : Nat := 8
def Micros60 : Nat := 10
def Micros64 : Nat := 10
def Micros70 : Nat := 11
def Micros410 : Nat := 96
def Micros480 : Nat := 110

attribute [simp] stackSize BusLow ReadRemainingBits SendRemainingBits
  SendRemainingIDBytes WaitForBusRelease BusRelease ClearBusyStatus BusSample
  TestTimings ReadScratchPad StartIDSend Reset Yield Success StillBusy
  NoDeviceOnBus DevicesAreBusy STARTCONVO READSCRATCH SELECTDEVICE
  SKIPROMWILDCARD Micros55 Micros60 Micros64 Micros70 Micros410 Micros480

/-- The mutable state of `AsyncTemperatureReader`, together with the bus
observables (`sampleCount`, `trace`) of the run so far. -/
structure DS where
  stack : List Nat
  status : Nat
  receiveRegister : Nat
  deviceAddr : List Nat
  idByteIndex : Nat
  sPad : List Nat
  alert : Bool
  sampleCount : Nat
  trace : List Ev
deriving DecidableEq, Repr

/-- `pullBusLow()` — drive the line low (recorded as an event). -/
def pullBusLow (s : DS) : DS := { s with trace := Ev.lowEv :: s.trace }

/-- `releaseBus()` — release the line (recorded as an event). -/
def releaseBus (s : DS) : DS := { s with trace := Ev.releaseEv :: s.trace }

/-- `_delay_us(n)` — inline busy delay (recorded as an event). -/
def delayUs (n : Nat) (s : DS) : DS := { s with trace := Ev.delayEv n :: s.trace }

/-- `sampleBus()` — read the line level from the bus oracle and count the
sample. -/
def sampleBus (bus : Nat → Bool) (s : DS) : Bool × DS :=
  (bus s.sampleCount,
   { s with sampleCount := s.sampleCount + 1,
            trace := Ev.sampleEv (bus s.sampleCount) :: s.trace })

/-- `flushStack()` — `topOfStack = 0`. -/
def flushStack (s : DS) : DS := { s with stack := [] }

/-- `push(opCode)` — on a full stack the byte is dropped and the alert LED
is lit; otherwise the byte is stored and the top index advances. -/
def push (opCode : Nat) (s : DS) : DS :=
  if stackSize ≤ s.stack.length then { s with alert := true }
  else { s with stack := opCode :: s.stack }

/-- A sequence of `push` calls, first list element pushed first (so the
last element ends up on top), exactly as consecutive `push(...)` lines in
the source. -/
def pushSeq (ops : List Nat) (s : DS) : DS := ops.foldl (fun t o => push o t) s

/-- `pop()` — `return theCode[--topOfStack];`.  On an empty stack the
source would read out of bounds; the model returns 0 (never reached from
the states the claims run). -/
def pop (s : DS) : Nat × DS :=
  match s.stack with
  | [] => (0, s)
  | x :: r => (x, { s with stack := r })

/-- `pushSendOneByte(b)` — `push(b); push(8); push(SendRemainingBits);`. -/
def pushSendOneByte (b : Nat) (s : DS) : DS := pushSeq [b, 8, SendRemainingBits] s

/-- `YieldFor(n)` — `push(n); push(Yield);`. -/
def YieldFor (numberOfTics : Nat) (s : DS) : DS := pushSeq [numberOfTics, Yield] s

/-- Result of executing one opcode inside the `doTimeslice` loop: either a
`Yield` ended the timeslice with a holdoff value, or the loop continues. -/
inductive StepRes where
| yield : Nat → DS → StepRes
| next : DS → StepRes
deriving DecidableEq, Repr

/-- One arm of the big `switch (opCode)` in `doTimeslice()`.  `s` is the
state after the opcode byte itself has been popped.  Each arm is a direct
transliteration of the corresponding `case` in the source. -/
def execOp (bus : Nat → Bool) (opCode : Nat) (s : DS) : StepRes :=
  if opCode = BusLow then
    StepRes.next (pullBusLow s)
  else if opCode = BusRelease then
    StepRes.next (delayUs 10 (releaseBus s))
  else if opCode = SendRemainingBits then
    let bitsToGo := (pop s).1
    let s1 := (pop s).2
    let toSend := (pop s1).1
    let s2 := (pop s1).2
    let theBitToSend := toSend &&& 1
    -- `if (--bitsToGo > 0)`: byte decrement with wraparound
    let bitsToGo1 := (bitsToGo + 255) % 256
    let s3 := if 0 < bitsToGo1 then
                pushSeq [toSend >>> 1, bitsToGo1, SendRemainingBits] s2
              else s2
    if theBitToSend = 1 then
      StepRes.next (YieldFor Micros64 (releaseBus (delayUs 6 (pullBusLow s3))))
    else
      StepRes.next (YieldFor Micros60 (push BusRelease (pullBusLow s3)))
  else if opCode = ClearBusyStatus then
    -- `status &= ~StillBusy` on a byte
    StepRes.next { s with status := s.status &&& 254 }
  else if opCode = ReadScratchPad then
    let s1 := { (push Reset s) with receiveRegister := 0 }
    StepRes.next (pushSeq [StartIDSend, Reset]
      (pushSendOneByte READSCRATCH (pushSeq [0, ReadRemainingBits] s1)))
  else if opCode = ReadRemainingBits then
    let s1 := delayUs 9 (releaseBus (delayUs 6 (pullBusLow s)))
    let thisBit := (sampleBus bus s1).1
    let s2 := (sampleBus bus s1).2
    let bitPos := (pop s2).1
    let s3 := (pop s2).2
    let s4 := if thisBit then
                { s3 with receiveRegister := s3.receiveRegister ||| (1 <<< (bitPos % 8)) }
              else s3
    -- `bitPos++` on a byte
    let bitPos1 := (bitPos + 1) % 256
    let s5 :=
      if bitPos1 % 8 = 0 then
        let sPadIndx := bitPos1 / 8 - 1
        let s5a := { s4 with sPad := s4.sPad.set sPadIndx s4.receiveRegister,
                             receiveRegister := 0 }
        if bitPos1 < 72 then pushSeq [bitPos1, ReadRemainingBits] s5a else s5a
      else pushSeq [bitPos1, ReadRemainingBits] s4
    StepRes.next (YieldFor Micros55 s5)
  else if opCode = StartIDSend then
    StepRes.next (pushSendOneByte SELECTDEVICE
      (push SendRemainingIDBytes { s with idByteIndex := 0 }))
  else if opCode = SendRemainingIDBytes then
    if s.idByteIndex < 8 then
      -- `push(SendRemainingIDBytes); push(deviceAddr[idByteIndex++]); push(8); push(SendRemainingBits);`
      StepRes.next (pushSeq [s.deviceAddr.getD s.idByteIndex 0, 8, SendRemainingBits]
        (push SendRemainingIDBytes { s with idByteIndex := s.idByteIndex + 1 }))
    else
      StepRes.next s
  else if opCode = Reset then
    StepRes.next (push BusLow (YieldFor Micros480 (push BusRelease
      (YieldFor Micros70 (push BusSample (YieldFor Micros410 s))))))
  else if opCode = Yield then
    StepRes.yield (pop s).1 (pop s).2
  else if opCode = BusSample then
    let thisBit := (sampleBus bus (releaseBus s)).1
    let s1 := (sampleBus bus (releaseBus s)).2
    if thisBit then
      StepRes.next { s1 with status := s1.status ||| NoDeviceOnBus, alert := true }
    else
      StepRes.next s1
  else if opCode = WaitForBusRelease then
    let thisBit := (sampleBus bus (releaseBus s)).1
    let s1 := (sampleBus bus (releaseBus s)).2
    if thisBit = false then
      StepRes.next (YieldFor 255 (push WaitForBusRelease s1))
    else
      -- `status &= ~DevicesAreBusy` on a byte
      StepRes.next { s1 with status := s1.status &&& 251 }
  else if opCode = TestTimings then
    let s1 := delayUs 10 (releaseBus s)
    let loByte := (pop s1).1
    let s2 := (pop s1).2
    let hiByte := (pop s2).1
    let s3 := (pop s2).2
    let toGo := (hiByte <<< 8) ||| loByte
    let s4 := if 1 < toGo then
                pushSeq [(toGo - 1) >>> 8, (toGo - 1) &&& 255, TestTimings] s3
              else s3
    let s5 := pullBusLow s4
    StepRes.next (
      if toGo % 5 = 0 then YieldFor Micros480 s5
      else if toGo % 5 = 1 then YieldFor Micros70 s5
      else if toGo % 5 = 2 then YieldFor Micros64 s5
      else if toGo % 5 = 3 then YieldFor Micros55 s5
      else YieldFor Micros55 s5)
  else
    -- a byte that is no opcode falls through the switch
    StepRes.next s

/-- `doTimeslice()` — pop and execute opcodes until a `Yield` ends the
timeslice (returning its holdoff) or the stack runs empty (returning the
maximum holdoff 255).  The source loop has no bound; `fuel` bounds the
number of loop iterations the model is willing to take, `none` meaning the
bound was hit (the termination claim shows a uniform bound suffices from
every reachable state). -/
def doTimeslice (bus : Nat → Bool) : Nat → DS → Option (Nat × DS)
  | 0, _ => none
  | fuel + 1, s =>
    match s.stack with
    | [] => some (255, s)
    | opCode :: rest =>
      match execOp bus opCode { s with stack := rest } with
      | StepRes.yield tics s1 => some (tics, s1)
      | StepRes.next s1 => doTimeslice bus fuel s1

/-- The external periodic driver: `n` successive `doTimeslice()` calls
(each given ample loop fuel 16), collecting the returned holdoff values. -/
def drainN (bus : Nat → Bool) : Nat → DS → Option (List Nat × DS)
  | 0, s => some ([], s)
  | n + 1, s =>
    match doTimeslice bus 16 s with
    | none => none
    | some (h, s1) =>
      match drainN bus n s1 with
      | none => none
      | some (hs, s2) => some (h :: hs, s2)

/-- A quiescent reader state (empty stack, zeroed registers and buffers). -/
def initState : DS :=
  { stack := [], status := 0, receiveRegister := 0,
    deviceAddr := List.replicate 8 0, idByteIndex := 0,
    sPad := List.replicate 9 0, alert := false, sampleCount := 0, trace := [] }

/-- A bus on which some device always answers the presence pulse and holds
nothing else: every sample reads low. -/
def busPresent : Nat → Bool := fun _ => false

/-- `resetAsync()` — flush, set `StillBusy`, push `ClearBusyStatus` then
`Reset`. -/
def resetAsync (s : DS) : DS :=
  pushSeq [ClearBusyStatus, Reset] { (flushStack s) with status := StillBusy }

/-- `readScratchpadAsync(deviceAddress, scratchPad)`. -/
def readScratchpadAsync (deviceAddress scratchPad : List Nat) (s : DS) : DS :=
  pushSeq [ClearBusyStatus, ReadScratchPad]
    { (flushStack s) with deviceAddr := deviceAddress, sPad := scratchPad,
                          status := StillBusy }

/-- `convertAllTemperaturesAsync()` — note: sets `DevicesAreBusy` and does
*not* push `ClearBusyStatus`. -/
def convertAllTemperaturesAsync (s : DS) : DS :=
  push Reset (pushSendOneByte SKIPROMWILDCARD (pushSendOneByte STARTCONVO
    (push WaitForBusRelease { (flushStack s) with status := DevicesAreBusy })))

/-- `doTestTimings(repeats)` — `repeats` is a `uint16_t`; the two operand
bytes pushed are its high and low byte. -/
def doTestTimings (repeats : Nat) (s : DS) : DS :=
  pushSeq [ClearBusyStatus, BusRelease, (repeats >>> 8) % 256, repeats &&& 255, TestTimings]
    { (flushStack s) with status := StillBusy }

/-- Stack contents after a step result (observable used by the claims about
macro expansions). -/
def stackAfter : StepRes → List Nat
  | StepRes.yield _ s => s.stack
  | StepRes.next s => s.stack

/-- The state carried by a step result. -/
def stepState : StepRes → DS
  | StepRes.yield _ s => s
  | StepRes.next s => s

/-- Whether a step result continues the `doTimeslice` loop (`true`) or ends
the timeslice with a `Yield` (`false`). -/
def isNext : StepRes → Bool
  | StepRes.yield _ _ => false
  | StepRes.next _ => true

/-- Bit `i` (LSB-first within each byte) of a 9-byte scratchpad. -/
def devBit (pad : List Nat) (i : Nat) : Bool :=
  Nat.testBit (pad.getD (i / 8) 0) (i % 8)

/-- A bus carrying one simulated device that holds scratchpad `pad`: it
answers the first presence pulse (sample 0 reads low), supplies its 72
scratchpad bits LSB-first on the next 72 samples (sample `1 + i` reads
`devBit pad i`), and answers any later presence pulse. -/
def simBus (pad : List Nat) : Nat → Bool := fun n =>
  if n = 0 then false
  else if n ≤ 72 then devBit pad (n - 1)
  else false

/-- A concrete 8-byte ROM address for the simulated read session. -/
def addr9 : List Nat := [0x28, 0x13, 0x8A, 0x01, 0x00, 0x00, 0x00, 0x6F]

/-- The caller's (zero-initialised) 9-byte scratchpad buffer for the
simulated read session. -/
def buf0 : List Nat := List.replicate 9 0

/-- The simulated read session: `readScratchpadAsync(addr9, buf0)` invoked
from the idle reader. -/
def sess0 : DS := readScratchpadAsync addr9 buf0 initState

/-- The caller's scratchpad buffer `buf` with its first `q` bytes already
overwritten by the simulated device's bytes `pad` (invariant of the
72-bit read phase). -/
def mixPad (pad buf : List Nat) (q : Nat) : List Nat := pad.take q ++ buf.drop q

/-- The reader state at the timeslice boundary just before bit `k`
(`0 ≤ k < 72`) of the 72-bit read phase of the simulated session: the
stack holds the pending `ReadRemainingBits` (operand `k`) above the final
`Reset` and the terminal `ClearBusyStatus`; the receive register holds the
`k % 8` low bits of the scratchpad byte currently being assembled; the
first `k / 8` bytes of the caller's buffer have been filled; `1 + k`
samples (one presence pulse plus `k` bit-reads) have been taken. -/
def readState (pad : List Nat) (k : Nat) (tr : List Ev) : DS :=
  { stack := [ReadRemainingBits, k, Reset, ClearBusyStatus],
    status := StillBusy, receiveRegister := pad.getD (k / 8) 0 % 2 ^ (k % 8),
    deviceAddr := addr9, idByteIndex := 8,
    sPad := mixPad pad buf0 (k / 8), alert := false,
    sampleCount := 1 + k, trace := tr }

/-- Well-formed instruction-stack shapes.  A stack is a concatenation of
pending items — an opcode together with the operand bytes popped with it —
and each item carries a headroom budget: the length of the stack when the
item sits on top, plus the worst-case extra growth of the timeslice that
consumes the item, stays within the stack capacity, so no push of that
timeslice is ever dropped.  Every stack built by the four public session
calls satisfies it, and `doTimeslice` preserves it. -/
inductive Safe : List Nat → Prop
| nilS : Safe []
| busLowS (r : List Nat) : Safe r → r.length + 1 ≤ 20 → Safe (BusLow :: r)
| busReleaseS (r : List Nat) : Safe r → r.length + 1 ≤ 20 → Safe (BusRelease :: r)
| busSampleS (r : List Nat) : Safe r → r.length + 1 ≤ 20 → Safe (BusSample :: r)
| clearBusyS (r : List Nat) : Safe r → r.length + 1 ≤ 20 → Safe (ClearBusyStatus :: r)
| waitS (r : List Nat) : Safe r → r.length + 3 ≤ 20 → Safe (WaitForBusRelease :: r)
| yieldS (t : Nat) (r : List Nat) : Safe r → r.length + 2 ≤ 20 → Safe (Yield :: t :: r)
| sendBitsS (n b : Nat) (r : List Nat) : Safe r → r.length + 6 ≤ 20 →
    Safe (SendRemainingBits :: n :: b :: r)
| sendIDS (r : List Nat) : Safe r → r.length + 7 ≤ 20 → Safe (SendRemainingIDBytes :: r)
| readBitsS (p : Nat) (r : List Nat) : Safe r → r.length + 4 ≤ 20 →
    Safe (ReadRemainingBits :: p :: r)
| testS (lo hi : Nat) (r : List Nat) : Safe r → r.length + 5 ≤ 20 →
    Safe (TestTimings :: lo :: hi :: r)
| resetS (r : List Nat) : Safe r → r.length + 9 ≤ 20 → Safe (Reset :: r)
| startIDS (r : List Nat) : Safe r → r.length + 7 ≤ 20 → Safe (StartIDSend :: r)
| readPadS (r : List Nat) : Safe r → r.length + 16 ≤ 20 → Safe (ReadScratchPad :: r)

/-- States of the reader reachable through the public session API (each
session call may interrupt any earlier state, as in the source) and
through timer-driven `doTimeslice` calls against an arbitrary bus. -/
inductive Reachable : DS → Prop
| ofReset (s : DS) : Reachable (resetAsync s)
| ofRead (a b : List Nat) (s : DS) : Reachable (readScratchpadAsync a b s)
| ofConvert (s : DS) : Reachable (convertAllTemperaturesAsync s)
| ofTest (n : Nat) (s : DS) : Reachable (doTestTimings n s)
| ofTick (bus : Nat → Bool) (fuel h : Nat) (s s1 : DS) :
    Reachable s → doTimeslice bus fuel s = some (h, s1) → Reachable s1

end Async

namespace Disc

/-- `#define SEARCHROM 0xF0` -/
def SEARCHROM : Nat := 0xF0

/-- Bit-level observables of the search engine: a presence pulse (with the
level sampled), one written bit slot, one read bit slot (with the bit
read).  The electrical micro-sequences inside `Reset()`, `sendBit()` and
`readBit()` are straight-line and carry no state, so the model records
them at this granularity against the same sample oracle. -/
inductive DEv where
| resetEv : Nat → DEv
| sendBitEv : Nat → DEv
| readBitEv : Nat → DEv
deriving DecidableEq, Repr

/-- State of `SensorDiscovery`: the caller's ID buffer (`inputBuf`), the
64-bit fork map (`fork`, 8 bytes), the `firstTime` flag, plus the bus
observables of the run. -/
structure SD where
  inputBuf : List Nat
  fork : List Nat
  firstTime : Bool
  sampleCount : Nat
  trace : List DEv
deriving DecidableEq, Repr

/-- `setBitInID(i)` / `setForkPoint(i)`: `buf[i/8] |= (1 << (i%8))`. -/
def setBitIn (buf : List Nat) (i : Nat) : List Nat :=
  buf.set (i / 8) (buf.getD (i / 8) 0 ||| (1 <<< (i % 8)))

/-- `unsetBitInID(i)` / `unsetForkPoint(i)`:
`buf[i/8] &= ~(1 << (i%8))` on bytes. -/
def unsetBitIn (buf : List Nat) (i : Nat) : List Nat :=
  buf.set (i / 8) (buf.getD (i / 8) 0 &&& (255 ^^^ (1 <<< (i % 8))))

/-- `isBitInID(i)` / `isForkPoint(i)`. -/
def testBitIn (buf : List Nat) (i : Nat) : Bool :=
  (buf.getD (i / 8) 0 &&& (1 <<< (i % 8))) != 0

/-- the scan of `findLastForkPoint()`: checks bits `n-1, n-2, …, 0`. -/
def lastForkAux (fork : List Nat) : Nat → Int
  | 0 => -1
  | n + 1 => if testBitIn fork n then (n : Int) else lastForkAux fork n

/-- `findLastForkPoint()` — deepest set fork bit, `-1` if none. -/
def findLastForkPoint (fork : List Nat) : Int := lastForkAux fork 64

/-- `readBit()` — one read slot against the bus oracle. -/
def readBit (bus : Nat → Bool) (s : SD) : Nat × SD :=
  let b : Nat := if bus s.sampleCount then 1 else 0
  (b, { s with sampleCount := s.sampleCount + 1, trace := DEv.readBitEv b :: s.trace })

/-- `Reset()` — presence pulse; returns 0 exactly when a device pulled the
line low (success), 1 when the line stayed high (no device). -/
def resetPulse (bus : Nat → Bool) (s : SD) : Nat × SD :=
  let b : Nat := if bus s.sampleCount then 1 else 0
  (b, { s with sampleCount := s.sampleCount + 1, trace := DEv.resetEv b :: s.trace })

/-- `sendBit(b)` — one write slot. -/
def sendBit (b : Nat) (s : SD) : SD := { s with trace := DEv.sendBitEv b :: s.trace }

/-- the loop of `sendByte(b)`: `sendBit(b & 0x01); b >>= 1;` eight times. -/
def sendByteAux : Nat → Nat → SD → SD
  | 0, _, s => s
  | i + 1, v, s => sendByteAux i (v >>> 1) (sendBit (v &&& 1) s)

/-- `sendByte(b)` — 8 bits, LSB first. -/
def sendByte (b : Nat) (s : SD) : SD := sendByteAux 8 b s

/-- `begin(deviceID)` — zero the ID buffer and the fork map. -/
def begin : SD :=
  { inputBuf := List.replicate 8 0, fork := List.replicate 8 0,
    firstTime := true, sampleCount := 0, trace := [] }

/-- the clearing loop `for (i = i0; i < 64; i++) unsetBitInID(i)`;
first argument is the remaining iteration count `64 - i0`. -/
def clearHighAux : Nat → List Nat → Nat → List Nat
  | 0, buf, _ => buf
  | n + 1, buf, i => clearHighAux n (unsetBitIn buf i) (i + 1)

/-- The body of one search round of `findNextDevice`, after the two
complementary response bits `b1`, `b0` have been read (each is 0 or 1, so
`response < 4`).  `none` is the `(1,1)` protocol-conflict abort (case 3 of
the switch, `return 2`); otherwise the chosen bit is recorded in the ID
buffer at `searchDepth` and transmitted. -/
def searchRound (frozen : Int) (searchDepth : Nat) (b1 b0 : Nat) (s : SD) : Option SD :=
  let response := (b1 <<< 1) ||| b0
  if response = 3 then none
  else
    let cs : Nat × SD :=
      if response = 2 then (1, s)
      else if response = 1 then (0, s)
      else
        -- response = 0: devices disagree
        if (searchDepth : Int) ≤ frozen then
          ((if testBitIn s.inputBuf searchDepth then 1 else 0), s)
        else
          (0, { s with fork := setBitIn s.fork searchDepth })
    let (chooseRight, s1) := cs
    some (if chooseRight = 1 then
            sendBit 1 { s1 with inputBuf := setBitIn s1.inputBuf searchDepth }
          else
            sendBit 0 { s1 with inputBuf := unsetBitIn s1.inputBuf searchDepth })

/-- the `for (searchDepth = 0; searchDepth < 64; ...)` loop; the first
argument is the number of rounds remaining.  Reaching 0 rounds left is the
`return 0` (Found) at the end of the function. -/
def searchLoop (bus : Nat → Bool) (frozen : Int) : Nat → Nat → SD → Nat × SD
  | 0, _, s => (0, s)
  | m + 1, searchDepth, s =>
    let (b1, s1) := readBit bus s
    let (b0, s2) := readBit bus s1
    match searchRound frozen searchDepth b1 b0 s2 with
    | none => (2, s2)
    | some s3 => searchLoop bus frozen m (searchDepth + 1) s3

/-- `Reset();` + `sendByte(SEARCHROM);` + the 64 search rounds — the part
of `findNextDevice` after the frozen-depth prelude.  A failed Reset
(`resp != 0`) is returned as the call's result. -/
def startSearch (bus : Nat → Bool) (frozen : Int) (s : SD) : Nat × SD :=
  let (resp, s1) := resetPulse bus s
  if resp ≠ 0 then (resp, s1)
  else searchLoop bus frozen 64 0 (sendByte SEARCHROM s1)

/-- The prelude mutation of a follow-up `findNextDevice` call at fork depth
`dn`: clear every ID bit to the right of `dn` (the `for` loop from
`dn + 1` to 63), clear the fork bit at `dn`, and force the ID bit at `dn`
to 1. -/
def backtrackState (s : SD) (dn : Nat) : SD :=
  { s with inputBuf := setBitIn (clearHighAux (64 - (dn + 1)) s.inputBuf (dn + 1)) dn,
           fork := unsetBitIn s.fork dn }

/-- `findNextDevice()` — returns 0 = Found, 1 = Exhausted (and also a
failed Reset, which the source propagates unchanged), 2 = ProtocolConflict. -/
def findNextDevice (bus : Nat → Bool) (s : SD) : Nat × SD :=
  if s.firstTime then
    startSearch bus (-1) { s with firstTime := false }
  else
    let d := findLastForkPoint s.fork
    if d < 0 then (1, s)
    else
      let dn := d.toNat
      startSearch bus ((dn : Int) + 1) (backtrackState s dn)

end Disc

namespace Stk

/-- Raw memory/index model of the instruction stack, faithful to the byte
arithmetic of the source: `theCode` is the memory (indices `≥ stackSize`
stand for whatever lies beyond the array), `topOfStack` is a byte
register. -/
structure RawStack where
  theCode : Nat → Nat
  topOfStack : Nat
  alert : Bool

/-- `push(opCode)` — on `topOfStack >= stackSize` the byte is dropped and
the alert LED lit (the diagnostic snapshot writes only to the separate
`stackSnapshot` array); otherwise `theCode[topOfStack] = opCode;
topOfStack++;` (byte increment). -/
def push (opCode : Nat) (st : RawStack) : RawStack :=
  if Async.stackSize ≤ st.topOfStack then { st with alert := true }
  else { st with
          theCode := fun i => if i = st.topOfStack then opCode else st.theCode i,
          topOfStack := (st.topOfStack + 1) % 256 }

/-- `pop()` — `return theCode[--topOfStack];` (byte decrement, so a pop at
top index 0 would wrap to 255). -/
def pop (st : RawStack) : Nat × RawStack :=
  (st.theCode ((st.topOfStack + 255) % 256),
   { st with topOfStack := (st.topOfStack + 255) % 256 })

/-- One stack operation. -/
inductive StkOp where
| pushIt : Nat → StkOp
| popIt : StkOp

/-- Run a sequence of stack operations. -/
def runOps : List StkOp → RawStack → RawStack
  | [], st => st
  | StkOp.pushIt b :: r, st => runOps r (push b st)
  | StkOp.popIt :: r, st => runOps r (pop st).2

/-- A sequence of stack operations in which every pop is applied to a
non-empty stack, as in every execution of the interpreter (the scheduler
loop pops only after its emptiness check, and operand pops only ever
consume operands pushed together with their opcode). -/
def Guarded : List StkOp → RawStack → Prop
  | [], _ => True
  | StkOp.pushIt b :: r, st => Guarded r (push b st)
  | StkOp.popIt :: r, st => 0 < st.topOfStack ∧ Guarded r (pop st).2

end Stk

/-! ## Theorems -/

/-- **C9.**  For every state in which the instruction stack is empty, a call
to `doTimeslice` returns the maximum holdoff 255 immediately (whatever loop
fuel it is given) and returns the state itself unchanged — in particular no
bus operation is recorded and no field is touched. -/
theorem claim9_empty_stack_idles (bus : Nat → Bool) (fuel : Nat) (s : Async.DS)
    (h : s.stack = []) :
    Async.doTimeslice bus (fuel + 1) s = some (255, s) := by
  simp [Async.doTimeslice, h]

/-- Witness for C9 at a concrete input. -/
theorem claim9_empty_stack_idles_witness :
    Async.doTimeslice Async.busPresent 1 Async.initState = some (255, Async.initState) :=
  claim9_empty_stack_idles Async.busPresent 0 Async.initState rfl

/-- **C4.**  When the `BusSample` presence check of a Reset reads the bus
high (no device present), the timeslice sets the `NoDeviceOnBus` status bit
(and lights the alert LED) but leaves every pending instruction on the
stack unchanged: the loop simply continues executing the remainder `rest`
of the macro-expanded composite operation. -/
theorem claim4_no_device_keeps_stack (bus : Nat → Bool) (fuel : Nat) (s : Async.DS)
    (rest : List Nat) (hst : s.stack = Async.BusSample :: rest)
    (hbus : bus s.sampleCount = true) :
    Async.doTimeslice bus (fuel + 1) s =
      Async.doTimeslice bus fuel
        { s with stack := rest,
                 status := s.status ||| Async.NoDeviceOnBus,
                 alert := true,
                 sampleCount := s.sampleCount + 1,
                 trace := Async.Ev.sampleEv true :: Async.Ev.releaseEv :: s.trace } := by
  simp [Async.doTimeslice, hst, Async.execOp, Async.BusSample, Async.BusLow,
        Async.BusRelease, Async.SendRemainingBits, Async.ClearBusyStatus,
        Async.ReadScratchPad, Async.ReadRemainingBits, Async.StartIDSend,
        Async.SendRemainingIDBytes, Async.Reset, Async.Yield,
        Async.sampleBus, Async.releaseBus, hbus]

/-- Witness for C4 at a concrete input. -/
theorem claim4_no_device_keeps_stack_witness :
    Async.doTimeslice (fun _ => true) 3
        { Async.initState with stack := [Async.BusSample, Async.ClearBusyStatus] } =
      Async.doTimeslice (fun _ => true) 2
        { Async.initState with stack := [Async.ClearBusyStatus],
                               status := Async.NoDeviceOnBus,
                               alert := true,
                               sampleCount := 1,
                               trace := [Async.Ev.sampleEv true, Async.Ev.releaseEv] } :=
  claim4_no_device_keeps_stack (fun _ => true) 2 _ [Async.ClearBusyStatus] rfl rfl

/-- **C1 counterexample.**  `convertAllTemperaturesAsync` never pushes
`ClearBusyStatus` at all, so `ClearBusyFlag` is *not* the terminal
instruction of every session: the claim is false for this session call. -/
theorem claim1_counterexample :
    ¬ Async.ClearBusyStatus ∈ (Async.convertAllTemperaturesAsync Async.initState).stack := by
  decide

/-- **C1 (amended).**  `resetAsync`, `readScratchpadAsync` and
`doTestTimings` each first clear the instruction stack and push
`ClearBusyStatus` before the session's opcode sequence, so it executes as
the terminal instruction of those sessions and clears `StillBusy` when the
stack drains; `convertAllTemperaturesAsync` clears the stack but pushes
`WaitForBusRelease` as its terminal instruction (tracking completion via
`DevicesAreBusy`) and pushes no `ClearBusyStatus`.  The last conjunct shows
the terminal `ClearBusyStatus` clearing `StillBusy` and idling. -/
theorem claim1_sessions_terminal_cleanup (s : Async.DS) (a b : List Nat) (n : Nat)
    (bus : Nat → Bool) (fuel : Nat) (s2 : Async.DS)
    (h2 : s2.stack = [Async.ClearBusyStatus]) :
    (Async.resetAsync s).stack = [Async.Reset, Async.ClearBusyStatus] ∧
    (Async.readScratchpadAsync a b s).stack =
      [Async.ReadScratchPad, Async.ClearBusyStatus] ∧
    (Async.doTestTimings n s).stack =
      [Async.TestTimings, n &&& 255, (n >>> 8) % 256, Async.BusRelease,
       Async.ClearBusyStatus] ∧
    (Async.convertAllTemperaturesAsync s).stack =
      [Async.Reset, Async.SendRemainingBits, 8, Async.SKIPROMWILDCARD,
       Async.SendRemainingBits, 8, Async.STARTCONVO, Async.WaitForBusRelease] ∧
    Async.doTimeslice bus (fuel + 2) s2 =
      some (255, { s2 with stack := [], status := s2.status &&& 254 }) := by
  refine ⟨?_, ?_, ?_, ?_, ?_⟩
  · simp [Async.resetAsync, Async.pushSeq, Async.push, Async.flushStack, Async.stackSize]
  · simp [Async.readScratchpadAsync, Async.pushSeq, Async.push, Async.flushStack,
          Async.stackSize]
  · simp [Async.doTestTimings, Async.pushSeq, Async.push, Async.flushStack, Async.stackSize]
  · simp [Async.convertAllTemperaturesAsync, Async.pushSeq, Async.push, Async.flushStack,
          Async.pushSendOneByte, Async.stackSize]
  · simp [Async.doTimeslice, h2, Async.execOp, Async.ClearBusyStatus, Async.BusLow,
          Async.BusRelease, Async.SendRemainingBits]

/-- Witness for C1 (amended) at a concrete input. -/
theorem claim1_sessions_terminal_cleanup_witness :
    (Async.resetAsync Async.initState).stack = [Async.Reset, Async.ClearBusyStatus] ∧
    Async.doTimeslice Async.busPresent 2
        { Async.initState with stack := [Async.ClearBusyStatus], status := 1 } =
      some (255, { Async.initState with stack := [], status := 0 }) := by
  have h := claim1_sessions_terminal_cleanup Async.initState Async.addr9
    (List.replicate 9 0) 3 Async.busPresent 0
    { Async.initState with stack := [Async.ClearBusyStatus], status := 1 } rfl
  exact ⟨h.1, by simpa using h.2.2.2.2⟩

/-- **C6 counterexample.**  The `Reset` macro expansion contains exactly 3
chained `Yield` instructions (for the 480 µs, 70 µs and 410 µs waits), not
4 as the claim states. -/
theorem claim6_counterexample :
    ¬ (Async.stackAfter (Async.execOp Async.busPresent Async.Reset
          { Async.initState with stack := [Async.ClearBusyStatus] })).count Async.Yield = 4 := by
  decide

/-- **C6 (amended).**  Starting a reset session via `resetAsync` and
draining the stack by repeated `doTimeslice` calls, on a bus that always
reports a device present, drives exactly the sequence: drive-low,
yield 480 µs-equivalent (110 ticks), release with its inline 10 µs settle
delay, yield 70 µs-equivalent (11 ticks), release again and sample the
presence bit, yield 410 µs-equivalent (96 ticks), then clear-busy and idle
at holdoff 255, with status ending at 0; the `Reset` macro is expressed as
3 (not 4) yields chained via composite push-back. -/
theorem claim6_reset_drain :
    Async.drainN Async.busPresent 4 (Async.resetAsync Async.initState) =
      some ([110, 11, 96, 255],
        { stack := [], status := 0, receiveRegister := 0,
          deviceAddr := List.replicate 8 0, idByteIndex := 0,
          sPad := List.replicate 9 0, alert := false, sampleCount := 1,
          trace := [Async.Ev.sampleEv false, Async.Ev.releaseEv, Async.Ev.delayEv 10,
                    Async.Ev.releaseEv, Async.Ev.lowEv] }) ∧
    Async.stackAfter (Async.execOp Async.busPresent Async.Reset
        { Async.initState with stack := [Async.ClearBusyStatus] }) =
      [Async.BusLow, Async.Yield, 110, Async.BusRelease, Async.Yield, 11,
       Async.BusSample, Async.Yield, 96, Async.ClearBusyStatus] ∧
    (Async.stackAfter (Async.execOp Async.busPresent Async.Reset
        { Async.initState with stack := [Async.ClearBusyStatus] })).count Async.Yield = 3 := by
  refine ⟨by decide, by decide, by decide⟩

/-- Helper: no memory at or beyond the stack capacity is ever written,
whatever stack operations run (even underflowing pops, which only move the
index). -/
theorem stk_code_high (ops : List Stk.StkOp) : ∀ (st : Stk.RawStack) (i : Nat),
    Async.stackSize ≤ i → (Stk.runOps ops st).theCode i = st.theCode i := by
  induction ops with
  | nil => intro st i _; rfl
  | cons op r ih =>
    intro st i hi
    cases op with
    | pushIt b =>
      rw [show Stk.runOps (Stk.StkOp.pushIt b :: r) st = Stk.runOps r (Stk.push b st) from rfl,
          ih (Stk.push b st) i hi]
      by_cases hfull : 20 ≤ st.topOfStack
      · simp [Stk.push, hfull]
      · have hne : i ≠ st.topOfStack := by
          simp [Async.stackSize] at hi; omega
        simp [Stk.push, hfull, hne]
    | popIt =>
      rw [show Stk.runOps (Stk.StkOp.popIt :: r) st = Stk.runOps r (Stk.pop st).2 from rfl,
          ih (Stk.pop st).2 i hi]
      rfl

/-- Helper: a guarded operation sequence stays guarded on its first part. -/
theorem stk_guarded_append (pre : List Stk.StkOp) : ∀ (post : List Stk.StkOp)
    (st : Stk.RawStack), Stk.Guarded (pre ++ post) st → Stk.Guarded pre st := by
  induction pre with
  | nil => intro post st _; trivial
  | cons op r ih =>
    intro post st h
    cases op with
    | pushIt b => exact ih post (Stk.push b st) h
    | popIt => exact ⟨h.1, ih post (Stk.pop st).2 h.2⟩

/-- Helper: the top index stays within capacity along a guarded run. -/
theorem stk_top_le (ops : List Stk.StkOp) : ∀ (st : Stk.RawStack),
    st.topOfStack ≤ Async.stackSize → Stk.Guarded ops st →
    (Stk.runOps ops st).topOfStack ≤ Async.stackSize := by
  induction ops with
  | nil => intro st h _; exact h
  | cons op r ih =>
    intro st h hg
    cases op with
    | pushIt b =>
      refine ih (Stk.push b st) ?_ hg
      by_cases hfull : 20 ≤ st.topOfStack
      · simpa [Stk.push, hfull] using h
      · simp only [Stk.push, Async.stackSize, hfull, if_false, ite_false]
        simp [Async.stackSize] at *
        omega
    | popIt =>
      refine ih (Stk.pop st).2 ?_ hg.2
      have h0 := hg.1
      simp [Stk.pop, Async.stackSize] at *
      omega

/-- **C5.**  A push onto a full instruction stack (top index at the
capacity 20) drops the offending opcode byte, raises the alert, and leaves
the stack contents and the top index unchanged; under every sequence of
pushes and pops, writes to `theCode` never land outside `[0, capacity)`
(unconditionally — even an underflowing pop only moves the index), and as
long as every pop acts on a non-empty stack the top index stays within
`[0, capacity]` at every point of the run. -/
theorem claim5_stack_safety (st : Stk.RawStack) (b : Nat) (ops : List Stk.StkOp) :
    (st.topOfStack = Async.stackSize → Stk.push b st = { st with alert := true }) ∧
    (∀ i, Async.stackSize ≤ i → (Stk.runOps ops st).theCode i = st.theCode i) ∧
    (st.topOfStack ≤ Async.stackSize → Stk.Guarded ops st →
      ∀ pre post, ops = pre ++ post →
        (Stk.runOps pre st).topOfStack ≤ Async.stackSize) := by
  refine ⟨?_, fun i hi => stk_code_high ops st i hi, ?_⟩
  · intro hfull
    simp [Stk.push, hfull]
  · intro hle hg pre post hsplit
    exact stk_top_le pre st hle (stk_guarded_append pre post st (hsplit ▸ hg))

/-- Witness for C5 at concrete inputs. -/
theorem claim5_stack_safety_witness :
    Stk.push 9 { theCode := fun _ => 0, topOfStack := 20, alert := false } =
      { theCode := (fun _ => (0 : Nat)), topOfStack := 20, alert := true } ∧
    (Stk.runOps [Stk.StkOp.pushIt 5, Stk.StkOp.popIt]
        { theCode := fun _ => 0, topOfStack := 0, alert := false }).topOfStack ≤
      Async.stackSize := by
  constructor
  · exact (claim5_stack_safety { theCode := fun _ => 0, topOfStack := 20, alert := false }
      9 []).1 rfl
  · exact (claim5_stack_safety { theCode := fun _ => 0, topOfStack := 0, alert := false }
      9 [Stk.StkOp.pushIt 5, Stk.StkOp.popIt]).2.2 (by simp [Async.stackSize])
      (by simp [Stk.Guarded, Stk.push, Stk.pop, Async.stackSize])
      [Stk.StkOp.pushIt 5, Stk.StkOp.popIt] [] (by simp)

/-- **C2.**  In every search round of `findNextDevice`, the two
complementary response bits `(b1, b0)` determine the action: `(1,0)`
chooses bit 1; `(0,1)` chooses bit 0; `(1,1)` aborts the whole call with
`ProtocolConflict` (result code 2) leaving the fork map and the ID buffer
untouched; `(0,0)` follows the bit already recorded in the ID buffer when
`searchDepth ≤ frozenDepth` and otherwise chooses 0 and sets the fork bit
at `searchDepth`; in every non-aborting case the chosen bit is recorded in
the ID buffer at `searchDepth` and then transmitted (`sendBit`). -/
theorem claim2_search_round_cases (frozen : Int) (depth : Nat) (s : Disc.SD)
    (b1 b0 : Nat) (h1 : b1 ≤ 1) (h0 : b0 ≤ 1) :
    (b1 = 1 → b0 = 0 →
      Disc.searchRound frozen depth b1 b0 s =
        some (Disc.sendBit 1 { s with inputBuf := Disc.setBitIn s.inputBuf depth })) ∧
    (b1 = 0 → b0 = 1 →
      Disc.searchRound frozen depth b1 b0 s =
        some (Disc.sendBit 0 { s with inputBuf := Disc.unsetBitIn s.inputBuf depth })) ∧
    (b1 = 1 → b0 = 1 → Disc.searchRound frozen depth b1 b0 s = none) ∧
    (∀ (bus : Nat → Bool) (m : Nat) (s' : Disc.SD),
      bus s'.sampleCount = true → bus (s'.sampleCount + 1) = true →
      (Disc.searchLoop bus frozen (m + 1) depth s').1 = 2 ∧
      (Disc.searchLoop bus frozen (m + 1) depth s').2.fork = s'.fork ∧
      (Disc.searchLoop bus frozen (m + 1) depth s').2.inputBuf = s'.inputBuf) ∧
    (b1 = 0 → b0 = 0 →
      ((depth : Int) ≤ frozen →
        Disc.searchRound frozen depth b1 b0 s =
          some (if Disc.testBitIn s.inputBuf depth then
                  Disc.sendBit 1 { s with inputBuf := Disc.setBitIn s.inputBuf depth }
                else
                  Disc.sendBit 0 { s with inputBuf := Disc.unsetBitIn s.inputBuf depth })) ∧
      (¬ (depth : Int) ≤ frozen →
        Disc.searchRound frozen depth b1 b0 s =
          some (Disc.sendBit 0 { s with inputBuf := Disc.unsetBitIn s.inputBuf depth,
                                        fork := Disc.setBitIn s.fork depth }))) := by
  refine ⟨?_, ?_, ?_, ?_, ?_⟩
  · rintro rfl rfl; simp [Disc.searchRound]
  · rintro rfl rfl; simp [Disc.searchRound]
  · rintro rfl rfl; simp [Disc.searchRound]
  · intro bus m s' hb1 hb2
    simp [Disc.searchLoop, Disc.readBit, hb1, hb2, Disc.searchRound]
  · rintro rfl rfl
    constructor
    · intro hfr
      by_cases htb : Disc.testBitIn s.inputBuf depth <;>
        simp [Disc.searchRound, hfr, htb]
    · intro hfr
      simp [Disc.searchRound, hfr]

/-- Witness for C2 at concrete inputs. -/
theorem claim2_search_round_cases_witness :
    Disc.searchRound (-1) 0 1 0 Disc.begin =
      some (Disc.sendBit 1 { Disc.begin with
        inputBuf := Disc.setBitIn Disc.begin.inputBuf 0 }) :=
  (claim2_search_round_cases (-1) 0 Disc.begin 1 0 (by decide) (by decide)).1 rfl rfl

/-- Helper: what the scan of `findLastForkPoint` returns — either `-1` and
no bit below `n` is set, or the deepest set bit strictly below `n`. -/
theorem lastForkAux_spec (fork : List Nat) : ∀ n : Nat,
    (Disc.lastForkAux fork n = -1 → ∀ i, i < n → Disc.testBitIn fork i = false) ∧
    (∀ dn : Nat, Disc.lastForkAux fork n = (dn : Int) →
      Disc.testBitIn fork dn = true ∧ dn < n ∧
      ∀ i, dn < i → i < n → Disc.testBitIn fork i = false) := by
  intro n
  induction n with
  | zero =>
    constructor
    · intro _ i hi; omega
    · intro dn h
      rw [show Disc.lastForkAux fork 0 = -1 from rfl] at h
      omega
  | succ n ih =>
    by_cases hbit : Disc.testBitIn fork n
    · constructor
      · intro h
        rw [show Disc.lastForkAux fork (n + 1) =
              (if Disc.testBitIn fork n then (n : Int) else Disc.lastForkAux fork n)
            from rfl, if_pos hbit] at h
        omega
      · intro dn h
        rw [show Disc.lastForkAux fork (n + 1) =
              (if Disc.testBitIn fork n then (n : Int) else Disc.lastForkAux fork n)
            from rfl, if_pos hbit] at h
        have hdn : dn = n := by omega
        subst hdn
        exact ⟨hbit, by omega, fun i h1 h2 => by omega⟩
    · have hrw : Disc.lastForkAux fork (n + 1) = Disc.lastForkAux fork n := by
        rw [show Disc.lastForkAux fork (n + 1) =
              (if Disc.testBitIn fork n then (n : Int) else Disc.lastForkAux fork n)
            from rfl, if_neg hbit]
      constructor
      · intro h i hi
        rcases Nat.lt_or_ge i n with hlt | hge
        · exact ih.1 (hrw ▸ h) i hlt
        · have : i = n := by omega
          subst this
          simpa using hbit
      · intro dn h
        obtain ⟨ha, hb, hc⟩ := ih.2 dn (hrw ▸ h)
        refine ⟨ha, by omega, fun i h1 h2 => ?_⟩
        rcases Nat.lt_or_ge i n with hlt | hge
        · exact hc i h1 hlt
        · have : i = n := by omega
          subst this
          simpa using hbit

/-- **C3.**  On every `findNextDevice` call after the first: the frozen
depth is the deepest set fork bit (`findLastForkPoint`); if no fork bit is
set the call returns `Exhausted` (1) with the state untouched; otherwise
all ID bits to the right of that depth are cleared, the fork bit there is
cleared, the ID bit there is forced to 1, the search continues with frozen
depth advanced by one (`dn + 1`), and the call then issues `Reset` — if no
device answers the presence pulse, that failure (1) is returned as the
call's result. -/
theorem claim3_backtrack_prelude (bus : Nat → Bool) (s : Disc.SD)
    (hft : s.firstTime = false) :
    (Disc.findLastForkPoint s.fork = -1 → Disc.findNextDevice bus s = (1, s)) ∧
    (∀ dn : Nat, Disc.findLastForkPoint s.fork = (dn : Int) →
      (Disc.testBitIn s.fork dn = true ∧
        ∀ i, dn < i → i < 64 → Disc.testBitIn s.fork i = false) ∧
      Disc.findNextDevice bus s =
        Disc.startSearch bus ((dn : Int) + 1) (Disc.backtrackState s dn) ∧
      (bus s.sampleCount = true →
        Disc.findNextDevice bus s =
          (1, { Disc.backtrackState s dn with
                sampleCount := s.sampleCount + 1,
                trace := Disc.DEv.resetEv 1 :: s.trace }))) := by
  constructor
  · intro h
    simp [Disc.findNextDevice, hft, h]
  · intro dn h
    have hspec := (lastForkAux_spec s.fork 64).2 dn h
    refine ⟨⟨hspec.1, fun i h1 h2 => hspec.2.2 i h1 h2⟩, ?_, ?_⟩
    · simp [Disc.findNextDevice, hft, h]
    · intro hbus
      simp [Disc.findNextDevice, hft, h, Disc.startSearch, Disc.resetPulse, hbus,
            Disc.backtrackState]

/-- Witness for C3 at a concrete input (no fork bit set: Exhausted). -/
theorem claim3_backtrack_prelude_witness :
    Disc.findNextDevice Async.busPresent { Disc.begin with firstTime := false } =
      (1, { Disc.begin with firstTime := false }) :=
  (claim3_backtrack_prelude Async.busPresent { Disc.begin with firstTime := false }
    rfl).1 (by decide)

/-- **C8.**  Once the enumeration is exhausted (fork bitmap all-zero on a
call after the first), every further `findNextDevice` call returns
`Exhausted` (1) and leaves the state — in particular the caller's ID
buffer — completely unchanged, so repeated calls are idempotent. -/
theorem claim8_exhausted_idempotent (s : Disc.SD) (hft : s.firstTime = false)
    (hfork : s.fork = List.replicate 8 0) :
    (∀ bus : Nat → Bool, Disc.findNextDevice bus s = (1, s)) ∧
    (∀ bus1 bus2 : Nat → Bool,
      Disc.findNextDevice bus2 (Disc.findNextDevice bus1 s).2 = (1, s)) := by
  have hlast : Disc.findLastForkPoint s.fork = -1 := by rw [hfork]; decide
  have hmain : ∀ bus : Nat → Bool, Disc.findNextDevice bus s = (1, s) := by
    intro bus
    simp [Disc.findNextDevice, hft, hlast]
  exact ⟨hmain, fun bus1 bus2 => by rw [hmain bus1]; exact hmain bus2⟩

/-- Witness for C8 at a concrete input. -/
theorem claim8_exhausted_idempotent_witness :
    Disc.findNextDevice Async.busPresent
        (Disc.findNextDevice (fun _ => true) { Disc.begin with firstTime := false }).2 =
      (1, { Disc.begin with firstTime := false }) :=
  (claim8_exhausted_idempotent { Disc.begin with firstTime := false } rfl rfl).2
    (fun _ => true) Async.busPresent

/-! ### Sample-count bookkeeping and bus congruence

`doTimeslice` consults the bus oracle only at the current `sampleCount`
(each `sampleBus()` consumes exactly one index), so two oracles that agree
on the indices a run actually samples produce identical runs.  This is
what lets the concrete simulated runs below stand for every oracle that
agrees on the sampled window. -/

@[simp] theorem push_sampleCount (o : Nat) (s : Async.DS) :
    (Async.push o s).sampleCount = s.sampleCount := by
  unfold Async.push; split <;> rfl

@[simp] theorem pushSeq_sampleCount (l : List Nat) : ∀ s : Async.DS,
    (Async.pushSeq l s).sampleCount = s.sampleCount := by
  induction l with
  | nil => intro s; rfl
  | cons a t ih =>
    intro s
    rw [show Async.pushSeq (a :: t) s = Async.pushSeq t (Async.push a s) from rfl, ih,
        push_sampleCount]

@[simp] theorem pop_sampleCount (s : Async.DS) :
    (Async.pop s).2.sampleCount = s.sampleCount := by
  rcases h : s.stack with _ | ⟨x, r⟩ <;> simp [Async.pop, h]

@[simp] theorem pullBusLow_sampleCount (s : Async.DS) :
    (Async.pullBusLow s).sampleCount = s.sampleCount := rfl

@[simp] theorem releaseBus_sampleCount (s : Async.DS) :
    (Async.releaseBus s).sampleCount = s.sampleCount := rfl

@[simp] theorem delayUs_sampleCount (n : Nat) (s : Async.DS) :
    (Async.delayUs n s).sampleCount = s.sampleCount := rfl

@[simp] theorem YieldFor_sampleCount (t : Nat) (s : Async.DS) :
    (Async.YieldFor t s).sampleCount = s.sampleCount := by
  simp [Async.YieldFor]

@[simp] theorem pushSendOneByte_sampleCount (b : Nat) (s : Async.DS) :
    (Async.pushSendOneByte b s).sampleCount = s.sampleCount := by
  simp [Async.pushSendOneByte]


/-- Each `switch` arm of the interpreter consults the bus only at the
current sample index, and takes either no sample (left disjunct) or
exactly one (right disjunct); two oracles agreeing there run the arm
identically. -/
theorem execOp_bus_spec (bus bus' : Nat → Bool) (op : Nat) (s : Async.DS) :
    ((Async.stepState (Async.execOp bus op s)).sampleCount = s.sampleCount ∧
      Async.execOp bus' op s = Async.execOp bus op s) ∨
    ((Async.stepState (Async.execOp bus op s)).sampleCount = s.sampleCount + 1 ∧
      (bus' s.sampleCount = bus s.sampleCount →
        Async.execOp bus' op s = Async.execOp bus op s)) := by
  by_cases h1 : op = Async.BusLow
  · subst h1; left
    exact ⟨by simp [Async.execOp, Async.stepState], by simp [Async.execOp]⟩
  by_cases h2 : op = Async.BusRelease
  · subst h2; left
    exact ⟨by simp [Async.execOp, Async.stepState], by simp [Async.execOp]⟩
  by_cases h3 : op = Async.SendRemainingBits
  · subst h3; left
    constructor
    · simp only [Async.execOp]
      simp [Async.stepState]
      try split_ifs <;> simp [Async.stepState]
    · simp [Async.execOp]
  by_cases h4 : op = Async.ClearBusyStatus
  · subst h4; left
    exact ⟨by simp [Async.execOp, Async.stepState], by simp [Async.execOp]⟩
  by_cases h5 : op = Async.ReadScratchPad
  · subst h5; left
    exact ⟨by simp [Async.execOp, Async.stepState], by simp [Async.execOp]⟩
  by_cases h6 : op = Async.ReadRemainingBits
  · subst h6; right
    constructor
    · simp only [Async.execOp]
      simp [Async.stepState, Async.sampleBus]
      try split_ifs <;> simp [Async.stepState]
    · intro hb
      simp [Async.execOp, Async.sampleBus, hb]
  by_cases h7 : op = Async.StartIDSend
  · subst h7; left
    exact ⟨by simp [Async.execOp, Async.stepState], by simp [Async.execOp]⟩
  by_cases h8 : op = Async.SendRemainingIDBytes
  · subst h8; left
    constructor
    · simp only [Async.execOp]
      simp [Async.stepState]
      try split_ifs <;> simp [Async.stepState]
    · simp [Async.execOp]
  by_cases h9 : op = Async.Reset
  · subst h9; left
    exact ⟨by simp [Async.execOp, Async.stepState], by simp [Async.execOp]⟩
  by_cases h10 : op = Async.Yield
  · subst h10; left
    exact ⟨by simp [Async.execOp, Async.stepState], by simp [Async.execOp]⟩
  by_cases h11 : op = Async.BusSample
  · subst h11; right
    constructor
    · simp only [Async.execOp]
      simp [Async.stepState, Async.sampleBus]
      try split_ifs <;> simp [Async.stepState]
    · intro hb
      simp [Async.execOp, Async.sampleBus, hb]
  by_cases h12 : op = Async.WaitForBusRelease
  · subst h12; right
    constructor
    · simp only [Async.execOp]
      simp [Async.stepState, Async.sampleBus]
      try split_ifs <;> simp [Async.stepState]
    · intro hb
      simp [Async.execOp, Async.sampleBus, hb]
  by_cases h13 : op = Async.TestTimings
  · subst h13; left
    constructor
    · simp only [Async.execOp]
      simp [Async.stepState]
      try split_ifs <;> simp [Async.stepState]
    · simp [Async.execOp]
  · left
    simp only [Async.BusLow, Async.BusRelease, Async.SendRemainingBits,
      Async.ClearBusyStatus, Async.ReadScratchPad, Async.ReadRemainingBits,
      Async.StartIDSend, Async.SendRemainingIDBytes, Async.Reset, Async.Yield,
      Async.BusSample, Async.WaitForBusRelease, Async.TestTimings]
      at h1 h2 h3 h4 h5 h6 h7 h8 h9 h10 h11 h12 h13
    constructor
    · simp [Async.execOp, h1, h2, h3, h4, h5, h6, h7, h8, h9, h10, h11, h12, h13,
            Async.stepState]
    · simp [Async.execOp, h1, h2, h3, h4, h5, h6, h7, h8, h9, h10, h11, h12, h13]

/-- A successful timeslice never decreases the sample counter, and any
oracle agreeing with `bus` on the window of samples the timeslice takes
produces the same timeslice. -/
theorem doTimeslice_bus (bus bus' : Nat → Bool) : ∀ (f : Nat) (s s1 : Async.DS) (h : Nat),
    Async.doTimeslice bus f s = some (h, s1) →
    s.sampleCount ≤ s1.sampleCount ∧
    ((∀ i, s.sampleCount ≤ i → i < s1.sampleCount → bus' i = bus i) →
      Async.doTimeslice bus' f s = some (h, s1)) := by
  intro f
  induction f with
  | zero =>
    intro s s1 h hrun
    simp [Async.doTimeslice] at hrun
  | succ f ih =>
    intro s s1 h hrun
    rcases hs : s.stack with _ | ⟨op, rest⟩
    · simp only [Async.doTimeslice, hs] at hrun
      obtain ⟨rfl, rfl⟩ : 255 = h ∧ s = s1 := by simpa using hrun
      exact ⟨le_refl _, fun _ => by simp [Async.doTimeslice, hs]⟩
    · simp only [Async.doTimeslice, hs] at hrun
      cases hex : Async.execOp bus op { s with stack := rest } with
      | yield t sA =>
        rw [hex] at hrun
        obtain ⟨rfl, rfl⟩ : t = h ∧ sA = s1 := by simpa using hrun
        rcases execOp_bus_spec bus bus' op { s with stack := rest } with ⟨hc, heq⟩ | ⟨hc, himp⟩
        · rw [hex] at hc
          simp [Async.stepState] at hc
          refine ⟨le_of_eq hc.symm, fun _ => ?_⟩
          simp only [Async.doTimeslice, hs]
          rw [heq, hex]
        · rw [hex] at hc
          simp [Async.stepState] at hc
          refine ⟨by omega, fun hag => ?_⟩
          have hb : bus' s.sampleCount = bus s.sampleCount :=
            hag s.sampleCount (le_refl _) (by omega)
          simp only [Async.doTimeslice, hs]
          rw [himp (by simpa using hb), hex]
      | next sA =>
        rw [hex] at hrun
        obtain ⟨hmono, hcong⟩ := ih sA s1 h hrun
        rcases execOp_bus_spec bus bus' op { s with stack := rest } with ⟨hc, heq⟩ | ⟨hc, himp⟩
        · rw [hex] at hc
          simp [Async.stepState] at hc
          refine ⟨by omega, fun hag => ?_⟩
          simp only [Async.doTimeslice, hs]
          rw [heq, hex]
          exact hcong (fun i hi1 hi2 => hag i (by omega) hi2)
        · rw [hex] at hc
          simp [Async.stepState] at hc
          refine ⟨by omega, fun hag => ?_⟩
          have hb : bus' s.sampleCount = bus s.sampleCount :=
            hag s.sampleCount (le_refl _) (by omega)
          simp only [Async.doTimeslice, hs]
          rw [himp (by simpa using hb), hex]
          exact hcong (fun i hi1 hi2 => hag i (by omega) hi2)

/-- `drainN` version of the previous lemma. -/
theorem drainN_bus (bus bus' : Nat → Bool) : ∀ (n : Nat) (s s1 : Async.DS) (hs : List Nat),
    Async.drainN bus n s = some (hs, s1) →
    s.sampleCount ≤ s1.sampleCount ∧
    ((∀ i, s.sampleCount ≤ i → i < s1.sampleCount → bus' i = bus i) →
      Async.drainN bus' n s = some (hs, s1)) := by
  intro n
  induction n with
  | zero =>
    intro s s1 hs hrun
    obtain ⟨rfl, rfl⟩ : [] = hs ∧ s = s1 := by simpa [Async.drainN] using hrun
    exact ⟨le_refl _, fun _ => by simp [Async.drainN]⟩
  | succ n ih =>
    intro s s1 hs hrun
    simp only [Async.drainN] at hrun
    cases hts : Async.doTimeslice bus 16 s with
    | none => rw [hts] at hrun; cases hrun
    | some p =>
      obtain ⟨hh, sA⟩ := p
      rw [hts] at hrun
      dsimp only [] at hrun
      cases hdr : Async.drainN bus n sA with
      | none => rw [hdr] at hrun; cases hrun
      | some q =>
        obtain ⟨hr, sB⟩ := q
        rw [hdr] at hrun
        obtain ⟨rfl, rfl⟩ : hh :: hr = hs ∧ sB = s1 := by simpa using hrun
        obtain ⟨hm1, hc1⟩ := doTimeslice_bus bus bus' 16 s sA hh hts
        obtain ⟨hm2, hc2⟩ := ih sA sB hr hdr
        refine ⟨by omega, fun hag => ?_⟩
        simp only [Async.drainN]
        rw [hc1 (fun i hi1 hi2 => hag i hi1 (by omega))]
        dsimp only []
        rw [hc2 (fun i hi1 hi2 => hag i (by omega) hi2)]

/-- Composing two drains. -/
theorem drainN_add (bus : Nat → Bool) : ∀ (m n : Nat) (s sm : Async.DS) (h1 : List Nat),
    Async.drainN bus m s = some (h1, sm) →
    ∀ (h2 : List Nat) (sn : Async.DS), Async.drainN bus n sm = some (h2, sn) →
    Async.drainN bus (m + n) s = some (h1 ++ h2, sn) := by
  intro m
  induction m with
  | zero =>
    intro n s sm h1 hm h2 sn hn
    obtain ⟨rfl, rfl⟩ : [] = h1 ∧ s = sm := by simpa [Async.drainN] using hm
    simpa using hn
  | succ m ih =>
    intro n s sm h1 hm h2 sn hn
    simp only [Async.drainN] at hm
    cases hts : Async.doTimeslice bus 16 s with
    | none => rw [hts] at hm; cases hm
    | some p =>
      obtain ⟨hh, sA⟩ := p
      rw [hts] at hm
      dsimp only [] at hm
      cases hdr : Async.drainN bus m sA with
      | none => rw [hdr] at hm; cases hm
      | some q =>
        obtain ⟨hr, sB⟩ := q
        rw [hdr] at hm
        obtain ⟨rfl, rfl⟩ : hh :: hr = h1 ∧ sB = sm := by simpa using hm
        have hstep : m + 1 + n = (m + n) + 1 := by omega
        rw [hstep]
        simp only [Async.drainN]
        rw [hts]
        dsimp only []
        rw [ih n sA sB hr hdr h2 sn hn]
        rfl

set_option maxRecDepth 40000 in
/-- Phase 1 of the simulated scratchpad read (Reset, device selection, the
`READSCRATCH` command byte: 83 timeslices) on the concrete all-low bus:
it ends at the boundary before read bit 0.  The three reset holdoffs are
followed by 80 bit-send holdoffs (`Micros64 = Micros60 = 10`). -/
theorem phase1_concrete :
    ∃ tr, Async.drainN Async.busPresent 83 Async.sess0 =
      some ([110, 11, 96] ++ List.replicate 80 10,
        { stack := [Async.ReadRemainingBits, 0, Async.Reset, Async.ClearBusyStatus],
          status := Async.StillBusy, receiveRegister := 0, deviceAddr := Async.addr9,
          idByteIndex := 8, sPad := Async.buf0, alert := false, sampleCount := 1,
          trace := tr }) := by
  cases hdr : Async.drainN Async.busPresent 83 Async.sess0 with
  | none =>
    have hsome : (Async.drainN Async.busPresent 83 Async.sess0).isSome = true := by decide
    rw [hdr] at hsome; cases hsome
  | some p =>
    obtain ⟨hs, s⟩ := p
    have hA : (Async.drainN Async.busPresent 83 Async.sess0).map
        (fun r => (r.1, r.2.stack, r.2.status)) =
        some ([110, 11, 96] ++ List.replicate 80 10,
          [Async.ReadRemainingBits, 0, Async.Reset, Async.ClearBusyStatus],
          Async.StillBusy) := by decide
    have hB : (Async.drainN Async.busPresent 83 Async.sess0).map
        (fun r => (r.2.receiveRegister, r.2.deviceAddr, r.2.idByteIndex)) =
        some (0, Async.addr9, 8) := by decide
    have hC : (Async.drainN Async.busPresent 83 Async.sess0).map
        (fun r => (r.2.sPad, r.2.alert, r.2.sampleCount)) =
        some (Async.buf0, false, 1) := by decide
    rw [hdr] at hA hB hC
    simp at hA hB hC
    refine ⟨s.trace, ?_⟩
    obtain ⟨hA1, hA2, hA3⟩ := hA
    obtain ⟨hB1, hB2, hB3⟩ := hB
    obtain ⟨hC1, hC2, hC3⟩ := hC
    cases s
    simp_all

/-- Phase 1 against the simulated single-device bus: `simBus pad` agrees
with the all-low bus on the only sample phase 1 takes (the presence
pulse). -/
theorem phase1 (pad : List Nat) :
    ∃ tr, Async.drainN (Async.simBus pad) 83 Async.sess0 =
      some ([110, 11, 96] ++ List.replicate 80 10, Async.readState pad 0 tr) := by
  obtain ⟨tr, h⟩ := phase1_concrete
  refine ⟨tr, ?_⟩
  have htr := (drainN_bus Async.busPresent (Async.simBus pad) 83 Async.sess0 _ _ h).2
    (by intro i hi1 hi2
        simp only [] at hi2
        have hi0 : i = 0 := by omega
        subst hi0
        simp [Async.simBus, Async.busPresent])
  rw [htr]
  have : Async.readState pad 0 tr =
      { stack := [Async.ReadRemainingBits, 0, Async.Reset, Async.ClearBusyStatus],
        status := Async.StillBusy, receiveRegister := 0, deviceAddr := Async.addr9,
        idByteIndex := 8, sPad := Async.buf0, alert := false, sampleCount := 1,
        trace := tr } := by
    simp [Async.readState, Async.mixPad]
    omega
  rw [this]

set_option maxHeartbeats 3200000 in
/-- One timeslice of the 72-bit read phase: from the boundary before bit
`p` the interpreter drives low / waits 6 µs / releases / waits 9 µs /
samples / folds the bit at position `p % 8` / re-pushes (unless the 72nd
bit completed byte 8) / yields `Micros55 = 8`.  Generic in the loop fuel
(`f + 2`; the drain uses 16). -/
theorem run_RRB (f : Nat) (bus : Nat → Bool) (s : Async.DS) (p : Nat)
    (hst : s.stack = [Async.ReadRemainingBits, p, Async.Reset, Async.ClearBusyStatus])
    (hp : p < 72) :
    Async.doTimeslice bus (f + 2) s =
      some (8,
        { s with
          stack := if (p + 1) % 8 = 0 ∧ ¬(p + 1 < 72) then
                     [Async.Reset, Async.ClearBusyStatus]
                   else [Async.ReadRemainingBits, p + 1, Async.Reset, Async.ClearBusyStatus],
          receiveRegister := if (p + 1) % 8 = 0 then 0
            else (if bus s.sampleCount then s.receiveRegister ||| (1 <<< (p % 8))
                  else s.receiveRegister),
          sPad := if (p + 1) % 8 = 0 then
              s.sPad.set ((p + 1) / 8 - 1)
                (if bus s.sampleCount then s.receiveRegister ||| (1 <<< (p % 8))
                 else s.receiveRegister)
            else s.sPad,
          sampleCount := s.sampleCount + 1,
          trace := Async.Ev.sampleEv (bus s.sampleCount) :: Async.Ev.delayEv 9 ::
                   Async.Ev.releaseEv :: Async.Ev.delayEv 6 :: Async.Ev.lowEv :: s.trace }) := by
  have hmod : (p + 1) % 256 = p + 1 := Nat.mod_eq_of_lt (by omega)
  by_cases hb : bus s.sampleCount <;> by_cases h8 : (p + 1) % 8 = 0 <;>
    by_cases h72 : p + 1 < 72 <;>
      simp [Async.doTimeslice, hst, Async.execOp, Async.sampleBus, Async.pop,
            Async.pullBusLow, Async.releaseBus, Async.delayUs, Async.YieldFor,
            Async.push, Async.pushSeq, hb, h8, h72, hmod]

set_option maxRecDepth 100000 in
set_option maxHeartbeats 1600000 in
/-- Folding the device's bit `r` into a receive register holding the `r`
low bits of byte `b` (as `ReadRemainingBits` does with its
`receiveRegister |= 1 << (bitPos % 8)`) yields the `r + 1` low bits. -/
theorem foldBit : ∀ b : Nat, b < 256 → ∀ r : Nat, r < 8 →
    (if Nat.testBit b r then b % 2 ^ r ||| 1 <<< r else b % 2 ^ r) = b % 2 ^ (r + 1) := by
  decide

/-- Writing the freshly assembled byte `q` into the partially filled
buffer extends the filled region by one byte. -/
theorem mixPad_set (pad buf : List Nat) (q : Nat) (hq : q < 9)
    (hpad : pad.length = 9) (hbuf : buf.length = 9) :
    (Async.mixPad pad buf q).set q (pad.getD q 0) = Async.mixPad pad buf (q + 1) := by
  unfold Async.mixPad
  have hlen : (pad.take q).length = q := by
    rw [List.length_take]; omega
  rw [List.set_append, hlen]
  have : ¬ q < q := by omega
  rw [if_neg this, Nat.sub_self]
  have hdq : buf.drop q = buf[q] :: buf.drop (q + 1) :=
    List.drop_eq_getElem_cons (by omega)
  rw [hdq]
  have htq : pad.take (q + 1) = pad.take q ++ [pad[q]] := by
    rw [List.take_succ, List.getElem?_eq_getElem (by omega)]
    rfl
  rw [htq]
  have hgd : pad.getD q 0 = pad[q] := by
    simp [List.getD_eq_getElem?_getD, List.getElem?_eq_getElem (show q < pad.length by omega)]
  rw [hgd, List.set_cons_zero, List.append_assoc]
  rfl

set_option maxHeartbeats 3200000 in
/-- The tail of the simulated read session: after the 72nd bit the stack
holds the final `Reset` above the terminal `ClearBusyStatus`; draining the
remaining 4 timeslices performs the reset (presence sample 73 reads low:
device present), clears `StillBusy` and idles at 255. -/
theorem finalResetRun (pad : List Nat) (s : Async.DS)
    (hst : s.stack = [Async.Reset, Async.ClearBusyStatus])
    (hsc : s.sampleCount = 73) :
    Async.drainN (Async.simBus pad) 4 s =
      some ([110, 11, 96, 255],
        { s with
          stack := ([] : List Nat),
          status := s.status &&& 254,
          sampleCount := 74,
          trace := Async.Ev.sampleEv false :: Async.Ev.releaseEv :: Async.Ev.delayEv 10 ::
                   Async.Ev.releaseEv :: Async.Ev.lowEv :: s.trace }) := by
  have hb : Async.simBus pad 73 = false := by
    simp [Async.simBus]
  simp [Async.drainN, Async.doTimeslice, hst, Async.execOp, Async.sampleBus,
        Async.pop, Async.push, Async.pushSeq, Async.YieldFor, Async.pullBusLow,
        Async.releaseBus, Async.delayUs, hsc, hb]

/-- `simBus` delivers device bit `k` at sample `1 + k` during the read
phase. -/
theorem simBus_read (pad : List Nat) (k : Nat) (hk : k < 72) :
    Async.simBus pad (1 + k) = Async.devBit pad k := by
  unfold Async.simBus
  rw [if_neg (by omega), if_pos (by omega)]
  congr 1
  omega

/-- A fully filled mix is the device scratchpad. -/
theorem mixPad_full (pad : List Nat) (hpad : pad.length = 9) :
    Async.mixPad pad Async.buf0 9 = pad := by
  unfold Async.mixPad
  rw [show (9 : Nat) = pad.length from hpad.symm, List.take_length]
  simp [Async.buf0, hpad]

/-- A one-call drain is just the timeslice's holdoff. -/
theorem drainN_one (bus : Nat → Bool) (s : Async.DS) (h : Nat) (s1 : Async.DS)
    (hts : Async.doTimeslice bus 16 s = some (h, s1)) :
    Async.drainN bus 1 s = some ([h], s1) := by
  simp only [Async.drainN]
  rw [hts]

set_option maxHeartbeats 6400000 in
/-- One bit-read timeslice: drive low, wait 6 us, release, wait 9 us, sample
the device bit for position `k`, fold it into the receive register at bit
position `k % 8` (storing the completed byte into the buffer and clearing the
register when the 8th bit of a byte arrives), and yield `Micros55 = 8`; the
boundary state advances from bit `k` to bit `k + 1`. -/
theorem readStep (pad : List Nat) (hpad : pad.length = 9)
    (hbytes : ∀ i, i < 9 → pad.getD i 0 < 256) (k : Nat) (hk : k + 1 < 72)
    (tr : List Async.Ev) :
    Async.doTimeslice (Async.simBus pad) 16 (Async.readState pad k tr) =
      some (8, Async.readState pad (k + 1)
        (Async.Ev.sampleEv (Async.devBit pad k) :: Async.Ev.delayEv 9 ::
         Async.Ev.releaseEv :: Async.Ev.delayEv 6 :: Async.Ev.lowEv :: tr)) := by
  have hk72 : k < 72 := by omega
  have hstep := run_RRB 14 (Async.simBus pad) (Async.readState pad k tr) k rfl hk72
  have hsc : (Async.readState pad k tr).sampleCount = 1 + k := rfl
  rw [hsc, simBus_read pad k hk72] at hstep
  have hfold : (if Async.devBit pad k then
        (Async.readState pad k tr).receiveRegister ||| 1 <<< (k % 8)
      else (Async.readState pad k tr).receiveRegister) =
      pad.getD (k / 8) 0 % 2 ^ (k % 8 + 1) := by
    show (if Nat.testBit (pad.getD (k / 8) 0) (k % 8) then
        pad.getD (k / 8) 0 % 2 ^ (k % 8) ||| 1 <<< (k % 8)
      else pad.getD (k / 8) 0 % 2 ^ (k % 8)) = pad.getD (k / 8) 0 % 2 ^ (k % 8 + 1)
    exact foldBit (pad.getD (k / 8) 0) (hbytes (k / 8) (by omega)) (k % 8) (by omega)
  have hnotdone : ¬ ((k + 1) % 8 = 0 ∧ ¬(k + 1 < 72)) := by
    intro hcontra
    exact hcontra.2 (by omega)
  rw [if_neg hnotdone] at hstep
  rw [hfold] at hstep
  have hboundary :
      ({ stack := [Async.ReadRemainingBits, k + 1, Async.Reset, Async.ClearBusyStatus],
         status := (Async.readState pad k tr).status,
         receiveRegister := if (k + 1) % 8 = 0 then 0
           else pad.getD (k / 8) 0 % 2 ^ (k % 8 + 1),
         deviceAddr := (Async.readState pad k tr).deviceAddr,
         idByteIndex := (Async.readState pad k tr).idByteIndex,
         sPad := if (k + 1) % 8 = 0 then
             (Async.readState pad k tr).sPad.set ((k + 1) / 8 - 1)
               (pad.getD (k / 8) 0 % 2 ^ (k % 8 + 1))
           else (Async.readState pad k tr).sPad,
         alert := (Async.readState pad k tr).alert,
         sampleCount := 1 + k + 1,
         trace := Async.Ev.sampleEv (Async.devBit pad k) :: Async.Ev.delayEv 9 ::
                  Async.Ev.releaseEv :: Async.Ev.delayEv 6 :: Async.Ev.lowEv ::
                  (Async.readState pad k tr).trace } : Async.DS) =
      Async.readState pad (k + 1)
        (Async.Ev.sampleEv (Async.devBit pad k) :: Async.Ev.delayEv 9 ::
         Async.Ev.releaseEv :: Async.Ev.delayEv 6 :: Async.Ev.lowEv :: tr) := by
    by_cases h8 : (k + 1) % 8 = 0
    · have hmod7 : k % 8 = 7 := by omega
      have hdiv : (k + 1) / 8 = k / 8 + 1 := by omega
      have hsub : (k + 1) / 8 - 1 = k / 8 := by omega
      have hreg : pad.getD (k / 8) 0 % 2 ^ (k % 8 + 1) = pad.getD (k / 8) 0 := by
        rw [hmod7, show (2 : Nat) ^ (7 + 1) = 256 from by norm_num]
        exact Nat.mod_eq_of_lt (hbytes (k / 8) (by omega))
      have hby : pad.getD (k / 8) 0 < 256 := hbytes (k / 8) (by omega)
      have hpow : (2 : Nat) ^ (k % 8) = 128 := by rw [hmod7]; norm_num
      simp [Async.readState, h8, hreg, hsub, hdiv, hmod7, hpow]
      refine ⟨by omega, ?_, by omega⟩
      rw [show pad[k / 8]?.getD 0 % 256 = pad.getD (k / 8) 0 from by
        rw [← List.getD_eq_getElem?_getD]; exact Nat.mod_eq_of_lt hby]
      exact mixPad_set pad Async.buf0 (k / 8) (by omega) hpad (by simp [Async.buf0])
    · have hdiv : (k + 1) / 8 = k / 8 := by omega
      have hm8 : (k + 1) % 8 = k % 8 + 1 := by omega
      simp [Async.readState, h8, hdiv, hm8]
      all_goals omega
  rw [hboundary] at hstep
  exact hstep

set_option maxHeartbeats 6400000 in
/-- The 72-bit read phase followed by the final reset: from the boundary
before bit `k` (with `m = 72 - k` bits left), the drain performs `m`
bit-read timeslices (holdoff `Micros55 = 8` each) and the 4 reset/cleanup
timeslices, ending idle with status 0, the caller's buffer holding the
device's 9 bytes, and 74 samples taken in total. -/
theorem readPhaseRun (pad : List Nat) (hpad : pad.length = 9)
    (hbytes : ∀ i, i < 9 → pad.getD i 0 < 256) :
    ∀ m k, k + m = 72 → 0 < m → ∀ tr : List Async.Ev,
      ∃ trF, Async.drainN (Async.simBus pad) (m + 4) (Async.readState pad k tr) =
        some (List.replicate m 8 ++ [110, 11, 96, 255],
          { stack := [], status := 0, receiveRegister := 0,
            deviceAddr := Async.addr9, idByteIndex := 8, sPad := pad,
            alert := false, sampleCount := 74, trace := trF }) := by
  intro m
  induction m with
  | zero =>
    intro k hk hpos
    omega
  | succ m ih =>
    intro k hk hpos tr
    have hk72 : k < 72 := by omega
    have hstep := run_RRB 14 (Async.simBus pad) (Async.readState pad k tr) k rfl hk72
    have hsc : (Async.readState pad k tr).sampleCount = 1 + k := rfl
    rw [hsc, simBus_read pad k hk72] at hstep
    have hfold : (if Async.devBit pad k then
          (Async.readState pad k tr).receiveRegister ||| 1 <<< (k % 8)
        else (Async.readState pad k tr).receiveRegister) =
        pad.getD (k / 8) 0 % 2 ^ (k % 8 + 1) := by
      show (if Nat.testBit (pad.getD (k / 8) 0) (k % 8) then
          pad.getD (k / 8) 0 % 2 ^ (k % 8) ||| 1 <<< (k % 8)
        else pad.getD (k / 8) 0 % 2 ^ (k % 8)) = pad.getD (k / 8) 0 % 2 ^ (k % 8 + 1)
      exact foldBit (pad.getD (k / 8) 0) (hbytes (k / 8) (by omega)) (k % 8) (by omega)
    rcases Nat.eq_zero_or_pos m with hm0 | hmpos
    · -- last bit: k = 71, then the final reset drains
      subst hm0
      have hk71 : k = 71 := by omega
      subst hk71
      have hr : (if Async.devBit pad 71 then
            (Async.readState pad 71 tr).receiveRegister ||| 1 <<< (71 % 8)
          else (Async.readState pad 71 tr).receiveRegister) = pad.getD 8 0 := by
        rw [hfold]
        rw [show (71 : Nat) / 8 = 8 from by norm_num,
            show (2 : Nat) ^ (71 % 8 + 1) = 256 from by norm_num]
        exact Nat.mod_eq_of_lt (hbytes 8 (by omega))
      rw [hr] at hstep
      have hset : ((Async.readState pad 71 tr).sPad.set ((71 + 1) / 8 - 1)
          (pad.getD 8 0)) = pad := by
        show ((Async.mixPad pad Async.buf0 (71 / 8)).set ((71 + 1) / 8 - 1)
          (pad.getD 8 0)) = pad
        rw [show (71 + 1) / 8 - 1 = 8 from by omega, show (71 : Nat) / 8 = 8 from by omega]
        rw [mixPad_set pad Async.buf0 8 (by omega) hpad (by simp [Async.buf0])]
        exact mixPad_full pad hpad
      rw [if_pos (by omega : ((71 : Nat) + 1) % 8 = 0)] at hstep
      rw [hset] at hstep
      rw [if_pos (by constructor <;> omega :
            ((71 : Nat) + 1) % 8 = 0 ∧ ¬(71 + 1 < 72))] at hstep
      rw [if_pos (show ((71 : Nat) + 1) % 8 = 0 from by norm_num)] at hstep
      have h1 := drainN_one _ _ _ _ hstep
      have hfin := drainN_add (Async.simBus pad) 1 4 _ _ _ h1 _ _
        (finalResetRun pad _ rfl rfl)
      refine ⟨Async.Ev.sampleEv false :: Async.Ev.releaseEv :: Async.Ev.delayEv 10 ::
        Async.Ev.releaseEv :: Async.Ev.lowEv :: Async.Ev.sampleEv (Async.devBit pad 71) ::
        Async.Ev.delayEv 9 :: Async.Ev.releaseEv :: Async.Ev.delayEv 6 ::
        Async.Ev.lowEv :: tr, hfin.trans ?_⟩
      simp [Async.readState, show (1 : Nat) &&& 254 = 0 from by decide]
    · -- middle bit: one read step, then the induction hypothesis
      have hstep2 := readStep pad hpad hbytes k (by omega) tr
      obtain ⟨trF, hIH⟩ := ih (k + 1) (by omega) hmpos
        (Async.Ev.sampleEv (Async.devBit pad k) :: Async.Ev.delayEv 9 ::
         Async.Ev.releaseEv :: Async.Ev.delayEv 6 :: Async.Ev.lowEv :: tr)
      have h1 := drainN_one _ _ _ _ hstep2
      have hfin := drainN_add (Async.simBus pad) 1 (m + 4) _ _ _ h1 _ _ hIH
      refine ⟨trF, ?_⟩
      rw [show m + 1 + 4 = 1 + (m + 4) from by omega]
      rw [show List.replicate (m + 1) 8 ++ [110, 11, 96, 255] =
            [8] ++ (List.replicate m 8 ++ [110, 11, 96, 255]) from by
        simp [List.replicate_succ]]
      exact hfin

/-- C7: draining a readScratchpadAsync session against a simulated device
(`simBus pad`) that supplies a fixed 9-byte scratchpad performs exactly 72
bit-read timeslices (the 72 holdoffs of `Micros55 = 8`, samples 2..73 of 74):
each bit-read slice folds the sampled device bit into the receive register at
position `bitIndex % 8`, stores the assembled byte into the buffer and clears
the register after every 8th bit (first conjunct: the boundary state
`readState` — whose register is `byte % 2 ^ (k % 8)` and whose buffer holds
`k / 8` completed bytes — advances by one bit per slice), and on completion
the caller's 9-byte buffer equals the device's bytes with status 0 (second
conjunct: the full 159-slice drain). -/
theorem claim7_read_scratchpad (pad : List Nat) (hpad : pad.length = 9)
    (hbytes : ∀ i, i < 9 → pad.getD i 0 < 256) :
    (∀ k, k + 1 < 72 → ∀ tr : List Async.Ev,
      Async.doTimeslice (Async.simBus pad) 16 (Async.readState pad k tr) =
        some (8, Async.readState pad (k + 1)
          (Async.Ev.sampleEv (Async.devBit pad k) :: Async.Ev.delayEv 9 ::
           Async.Ev.releaseEv :: Async.Ev.delayEv 6 :: Async.Ev.lowEv :: tr))) ∧
    (∃ trF, Async.drainN (Async.simBus pad) 159 Async.sess0 =
      some (([110, 11, 96] ++ List.replicate 80 10) ++
            (List.replicate 72 8 ++ [110, 11, 96, 255]),
        { stack := [], status := 0, receiveRegister := 0,
          deviceAddr := Async.addr9, idByteIndex := 8, sPad := pad,
          alert := false, sampleCount := 74, trace := trF })) := by
  constructor
  · intro k hk tr
    exact readStep pad hpad hbytes k hk tr
  · obtain ⟨tr1, h1⟩ := phase1 pad
    obtain ⟨trF, h2⟩ := readPhaseRun pad hpad hbytes 72 0 (by norm_num) (by norm_num) tr1
    exact ⟨trF, drainN_add (Async.simBus pad) 83 76 _ _ _ h1 _ _ h2⟩

/-- Witness for C7 at a concrete 9-byte scratchpad. -/
theorem claim7_read_scratchpad_witness :
    (∀ k, k + 1 < 72 → ∀ tr : List Async.Ev,
      Async.doTimeslice (Async.simBus [80, 5, 75, 70, 127, 255, 12, 16, 163]) 16
          (Async.readState [80, 5, 75, 70, 127, 255, 12, 16, 163] k tr) =
        some (8, Async.readState [80, 5, 75, 70, 127, 255, 12, 16, 163] (k + 1)
          (Async.Ev.sampleEv (Async.devBit [80, 5, 75, 70, 127, 255, 12, 16, 163] k) ::
           Async.Ev.delayEv 9 :: Async.Ev.releaseEv :: Async.Ev.delayEv 6 ::
           Async.Ev.lowEv :: tr))) ∧
    (∃ trF, Async.drainN (Async.simBus [80, 5, 75, 70, 127, 255, 12, 16, 163]) 159
        Async.sess0 =
      some (([110, 11, 96] ++ List.replicate 80 10) ++
            (List.replicate 72 8 ++ [110, 11, 96, 255]),
        { stack := [], status := 0, receiveRegister := 0,
          deviceAddr := Async.addr9, idByteIndex := 8,
          sPad := [80, 5, 75, 70, 127, 255, 12, 16, 163],
          alert := false, sampleCount := 74, trace := trF })) :=
  claim7_read_scratchpad [80, 5, 75, 70, 127, 255, 12, 16, 163] (by decide) (by decide)


/-- An empty stack returns the maximum holdoff at once. -/
theorem doTimeslice_nil (bus : Nat → Bool) (f : Nat) (s : Async.DS) (h : s.stack = []) :
    Async.doTimeslice bus (f + 1) s = some (255, s) := by
  conv_lhs => rw [Async.doTimeslice]
  rw [h]

/-- One loop iteration of `doTimeslice`: the top opcode is popped and its
arm continues the loop. -/
theorem doTimeslice_cons_next (bus : Nat → Bool) (f : Nat) (s : Async.DS) (op : Nat)
    (rest : List Nat) (h : s.stack = op :: rest) (s1 : Async.DS)
    (hexec : Async.execOp bus op { s with stack := rest } = Async.StepRes.next s1) :
    Async.doTimeslice bus (f + 1) s = Async.doTimeslice bus f s1 := by
  conv_lhs => rw [Async.doTimeslice]
  rw [h]
  dsimp only []
  rw [hexec]

/-- One loop iteration of `doTimeslice`: the top opcode is popped and its
arm ends the timeslice. -/
theorem doTimeslice_cons_yield (bus : Nat → Bool) (f : Nat) (s : Async.DS) (op : Nat)
    (rest : List Nat) (h : s.stack = op :: rest) (t : Nat) (s1 : Async.DS)
    (hexec : Async.execOp bus op { s with stack := rest } = Async.StepRes.yield t s1) :
    Async.doTimeslice bus (f + 1) s = some (t, s1) := by
  conv_lhs => rw [Async.doTimeslice]
  rw [h]
  dsimp only []
  rw [hexec]

theorem stackAfter_of_next (e : Async.StepRes) (u : Async.DS)
    (h : e = Async.StepRes.next u) : u.stack = Async.stackAfter e := by
  rw [h]
  rfl

theorem stackAfter_ite (c : Prop) [Decidable c] (a b : Async.StepRes) :
    Async.stackAfter (if c then a else b) =
      if c then Async.stackAfter a else Async.stackAfter b :=
  apply_ite Async.stackAfter c a b

theorem stackAfter_next (u : Async.DS) :
    Async.stackAfter (Async.StepRes.next u) = u.stack := rfl

theorem stackAfter_yield (t : Nat) (u : Async.DS) :
    Async.stackAfter (Async.StepRes.yield t u) = u.stack := rfl

theorem isNext_ite (c : Prop) [Decidable c] (a b : Async.StepRes) :
    Async.isNext (if c then a else b) =
      if c then Async.isNext a else Async.isNext b :=
  apply_ite Async.isNext c a b

theorem isNext_next (u : Async.DS) :
    Async.isNext (Async.StepRes.next u) = true := rfl

theorem isNext_yield (t : Nat) (u : Async.DS) :
    Async.isNext (Async.StepRes.yield t u) = false := rfl

theorem DS_stack_ite (c : Prop) [Decidable c] (a b : Async.DS) :
    (if c then a else b).stack = if c then a.stack else b.stack :=
  apply_ite Async.DS.stack c a b

theorem List_length_ite (c : Prop) [Decidable c] (xs ys : List Nat) :
    (if c then xs else ys).length = if c then xs.length else ys.length :=
  apply_ite List.length c xs ys

theorem le_ite_nat (k : Nat) (c : Prop) [Decidable c] (m n : Nat) :
    (k ≤ if c then m else n) = if c then k ≤ m else k ≤ n :=
  apply_ite (fun x => k ≤ x) c m n

theorem ite_cons_same (c : Prop) [Decidable c] (a b : Nat) (l : List Nat) :
    (if c then a :: l else b :: l) = (if c then a else b) :: l := by
  split <;> rfl

theorem ite_cons_head (c : Prop) [Decidable c] (a : Nat) (l1 l2 : List Nat) :
    (if c then a :: l1 else a :: l2) = a :: (if c then l1 else l2) := by
  split <;> rfl

/-- A `Yield` on top of the stack ends the timeslice with the holdoff
stored beneath it. -/
theorem doTimeslice_yieldTop (bus : Nat → Bool) (f : Nat) (s : Async.DS) (t : Nat)
    (r : List Nat) (h : s.stack = Async.Yield :: t :: r) :
    Async.doTimeslice bus (f + 1) s = some (t, { s with stack := r }) := by
  apply doTimeslice_cons_yield bus f s Async.Yield (t :: r) h
  simp [Async.execOp, Async.pop]

theorem yield_item_done (bus : Nat → Bool) (f : Nat) (s : Async.DS) (t : Nat)
    (rest : List Nat) (hst : s.stack = Async.Yield :: t :: rest)
    (hsafe : Async.Safe rest) :
    ∃ h s1, Async.doTimeslice bus (f + 1) s = some (h, s1) ∧ Async.Safe s1.stack :=
  ⟨t, { s with stack := rest }, doTimeslice_yieldTop bus f s t rest hst, by simpa using hsafe⟩

/-- Loop fuel is monotone: a run that finishes within `f` iterations
finishes identically with any larger bound. -/
theorem doTimeslice_mono (bus : Nat → Bool) :
    ∀ f g s p, Async.doTimeslice bus f s = some p → f ≤ g →
      Async.doTimeslice bus g s = some p := by
  intro f
  induction f with
  | zero =>
    intro g s p h
    simp [Async.doTimeslice] at h
  | succ f ih =>
    intro g s p h hle
    cases g with
    | zero => omega
    | succ g =>
      rw [Async.doTimeslice] at h ⊢
      cases hst : s.stack with
      | nil =>
        rw [hst] at h
        exact h
      | cons op rest =>
        rw [hst] at h
        dsimp only [] at h ⊢
        cases hx : Async.execOp bus op { s with stack := rest } with
        | yield t u =>
          rw [hx] at h
          exact h
        | next u =>
          rw [hx] at h
          exact ih g u p h (by omega)

set_option maxRecDepth 4000 in
set_option maxHeartbeats 3200000 in
/-- The key induction for termination: from any state whose stack is
well-formed (`Safe`), `doTimeslice` returns within `stack.length + 8` loop
iterations — each iteration either consumes a whole item or reaches the
`Yield` the item pushed above itself — and the resulting stack is again
well-formed. -/
theorem safe_step (bus : Nat → Bool) :
    ∀ st, Async.Safe st → ∀ s : Async.DS, s.stack = st →
      ∃ h s1, Async.doTimeslice bus (st.length + 8) s = some (h, s1) ∧
        Async.Safe s1.stack := by
  intro st hsafe
  induction hsafe with
  | nilS =>
    intro s hst
    exact ⟨255, s, doTimeslice_nil bus 7 s hst, by rw [hst]; exact Async.Safe.nilS⟩
  | busLowS r hr hlen ih =>
    intro s hst
    cases hx : Async.execOp bus Async.BusLow { s with stack := r } with
    | yield t u =>
      have hN : Async.isNext (Async.execOp bus Async.BusLow { s with stack := r }) = true := by
        simp [Async.execOp, isNext_ite, isNext_next, isNext_yield]
      rw [hx] at hN
      simp [Async.isNext] at hN
    | next u =>
      have h1 := doTimeslice_cons_next bus (r.length + 8) s _ _ hst u hx
      have hstk : u.stack = r := by
        rw [stackAfter_of_next _ _ hx]
        simp [Async.execOp, stackAfter_ite, stackAfter_next, stackAfter_yield, DS_stack_ite, List_length_ite, le_ite_nat, ite_cons_same, ite_cons_head, Async.pop, Async.push, Async.pushSeq, Async.YieldFor, Async.pushSendOneByte, Async.pullBusLow, Async.releaseBus, Async.delayUs, Async.sampleBus]
      obtain ⟨h2, s2, hrun, hsafe2⟩ := ih u hstk
      exact ⟨h2, s2, h1.trans hrun, hsafe2⟩
  | busReleaseS r hr hlen ih =>
    intro s hst
    cases hx : Async.execOp bus Async.BusRelease { s with stack := r } with
    | yield t u =>
      have hN : Async.isNext (Async.execOp bus Async.BusRelease { s with stack := r }) = true := by
        simp [Async.execOp, isNext_ite, isNext_next, isNext_yield]
      rw [hx] at hN
      simp [Async.isNext] at hN
    | next u =>
      have h1 := doTimeslice_cons_next bus (r.length + 8) s _ _ hst u hx
      have hstk : u.stack = r := by
        rw [stackAfter_of_next _ _ hx]
        simp [Async.execOp, stackAfter_ite, stackAfter_next, stackAfter_yield, DS_stack_ite, List_length_ite, le_ite_nat, ite_cons_same, ite_cons_head, Async.pop, Async.push, Async.pushSeq, Async.YieldFor, Async.pushSendOneByte, Async.pullBusLow, Async.releaseBus, Async.delayUs, Async.sampleBus]
      obtain ⟨h2, s2, hrun, hsafe2⟩ := ih u hstk
      exact ⟨h2, s2, h1.trans hrun, hsafe2⟩
  | busSampleS r hr hlen ih =>
    intro s hst
    cases hx : Async.execOp bus Async.BusSample { s with stack := r } with
    | yield t u =>
      have hN : Async.isNext (Async.execOp bus Async.BusSample { s with stack := r }) = true := by
        simp [Async.execOp, isNext_ite, isNext_next, isNext_yield]
      rw [hx] at hN
      simp [Async.isNext] at hN
    | next u =>
      have h1 := doTimeslice_cons_next bus (r.length + 8) s _ _ hst u hx
      have hstk : u.stack = r := by
        rw [stackAfter_of_next _ _ hx]
        simp [Async.execOp, stackAfter_ite, stackAfter_next, stackAfter_yield, DS_stack_ite, List_length_ite, le_ite_nat, ite_cons_same, ite_cons_head, Async.pop, Async.push, Async.pushSeq, Async.YieldFor, Async.pushSendOneByte, Async.pullBusLow, Async.releaseBus, Async.delayUs, Async.sampleBus]
      obtain ⟨h2, s2, hrun, hsafe2⟩ := ih u hstk
      exact ⟨h2, s2, h1.trans hrun, hsafe2⟩
  | clearBusyS r hr hlen ih =>
    intro s hst
    cases hx : Async.execOp bus Async.ClearBusyStatus { s with stack := r } with
    | yield t u =>
      have hN : Async.isNext (Async.execOp bus Async.ClearBusyStatus { s with stack := r }) = true := by
        simp [Async.execOp, isNext_ite, isNext_next, isNext_yield]
      rw [hx] at hN
      simp [Async.isNext] at hN
    | next u =>
      have h1 := doTimeslice_cons_next bus (r.length + 8) s _ _ hst u hx
      have hstk : u.stack = r := by
        rw [stackAfter_of_next _ _ hx]
        simp [Async.execOp, stackAfter_ite, stackAfter_next, stackAfter_yield, DS_stack_ite, List_length_ite, le_ite_nat, ite_cons_same, ite_cons_head, Async.pop, Async.push, Async.pushSeq, Async.YieldFor, Async.pushSendOneByte, Async.pullBusLow, Async.releaseBus, Async.delayUs, Async.sampleBus]
      obtain ⟨h2, s2, hrun, hsafe2⟩ := ih u hstk
      exact ⟨h2, s2, h1.trans hrun, hsafe2⟩
  | waitS r hr hlen ih =>
    intro s hst
    cases hx : Async.execOp bus Async.WaitForBusRelease { s with stack := r } with
    | yield t u =>
      have hN : Async.isNext (Async.execOp bus Async.WaitForBusRelease { s with stack := r }) = true := by
        simp [Async.execOp, isNext_ite, isNext_next, isNext_yield]
      rw [hx] at hN
      simp [Async.isNext] at hN
    | next u =>
      have h1 := doTimeslice_cons_next bus (r.length + 8) s _ _ hst u hx
      have hstk : u.stack =
          if bus s.sampleCount = false then
            Async.Yield :: 255 :: Async.WaitForBusRelease :: r else r := by
        rw [stackAfter_of_next _ _ hx]
        simp [Async.execOp, stackAfter_ite, stackAfter_next, stackAfter_yield, DS_stack_ite, List_length_ite, le_ite_nat, ite_cons_same, ite_cons_head, Async.pop, Async.push, Async.pushSeq, Async.YieldFor, Async.pushSendOneByte, Async.pullBusLow, Async.releaseBus, Async.delayUs, Async.sampleBus,
        show ¬ 20 ≤ r.length from by omega,
        show ¬ 20 ≤ r.length + 1 from by omega,
        show ¬ 20 ≤ r.length + 2 from by omega,
        show ¬ 20 ≤ r.length + 1 + 1 from by omega,
        show ¬ 18 ≤ r.length from by omega,
        show ¬ 19 ≤ r.length from by omega]
      by_cases hbit : bus s.sampleCount = false
      · rw [if_pos hbit] at hstk
        obtain ⟨h2, s2, hrun, hsafe2⟩ := yield_item_done bus (r.length + 7) u 255
          (Async.WaitForBusRelease :: r) hstk (Async.Safe.waitS r hr hlen)
        exact ⟨h2, s2, h1.trans hrun, hsafe2⟩
      · rw [if_neg hbit] at hstk
        obtain ⟨h2, s2, hrun, hsafe2⟩ := ih u hstk
        exact ⟨h2, s2, h1.trans hrun, hsafe2⟩
  | yieldS t r hr hlen =>
    intro s hst
    exact yield_item_done bus (r.length + 9) s t r hst hr
  | sendBitsS n b r hr hlen ih =>
    intro s hst
    cases hx : Async.execOp bus Async.SendRemainingBits { s with stack := n :: b :: r } with
    | yield t u =>
      have hN : Async.isNext (Async.execOp bus Async.SendRemainingBits { s with stack := n :: b :: r }) = true := by
        simp [Async.execOp, isNext_ite, isNext_next, isNext_yield]
      rw [hx] at hN
      simp [Async.isNext] at hN
    | next u =>
      have h1 := doTimeslice_cons_next bus (r.length + 10) s _ _ hst u hx
      have hstk : u.stack =
          if b &&& 1 = 1 then
            Async.Yield :: 10 ::
              (if 0 < (n + 255) % 256 then
                Async.SendRemainingBits :: (n + 255) % 256 :: b >>> 1 :: r else r)
          else
            Async.Yield :: 10 :: Async.BusRelease ::
              (if 0 < (n + 255) % 256 then
                Async.SendRemainingBits :: (n + 255) % 256 :: b >>> 1 :: r else r) := by
        rw [stackAfter_of_next _ _ hx]
        simp [Async.execOp, stackAfter_ite, stackAfter_next, stackAfter_yield, DS_stack_ite, List_length_ite, le_ite_nat, ite_cons_same, ite_cons_head, Async.pop, Async.push, Async.pushSeq, Async.YieldFor, Async.pushSendOneByte, Async.pullBusLow, Async.releaseBus, Async.delayUs, Async.sampleBus,
        show ¬ 20 ≤ r.length from by omega,
        show ¬ 20 ≤ r.length + 1 from by omega,
        show ¬ 20 ≤ r.length + 2 from by omega,
        show ¬ 20 ≤ r.length + 3 from by omega,
        show ¬ 20 ≤ r.length + 4 from by omega,
        show ¬ 20 ≤ r.length + 5 from by omega,
        show ¬ 20 ≤ r.length + 1 + 1 from by omega,
        show ¬ 20 ≤ r.length + 2 + 1 from by omega,
        show ¬ 20 ≤ r.length + 3 + 1 from by omega,
        show ¬ 20 ≤ r.length + 4 + 1 from by omega,
        show ¬ 15 ≤ r.length from by omega,
        show ¬ 16 ≤ r.length from by omega,
        show ¬ 17 ≤ r.length from by omega,
        show ¬ 18 ≤ r.length from by omega,
        show ¬ 19 ≤ r.length from by omega]
      have hsafe3 : Async.Safe
          (if 0 < (n + 255) % 256 then
            Async.SendRemainingBits :: (n + 255) % 256 :: b >>> 1 :: r else r) := by
        by_cases hbits : 0 < (n + 255) % 256
        · rw [if_pos hbits]
          exact Async.Safe.sendBitsS _ _ r hr hlen
        · rw [if_neg hbits]
          exact hr
      by_cases hbit : b &&& 1 = 1
      · rw [if_pos hbit] at hstk
        obtain ⟨h2, s2, hrun, hsafe2⟩ := yield_item_done bus (r.length + 9) u 10 _ hstk hsafe3
        exact ⟨h2, s2, h1.trans hrun, hsafe2⟩
      · rw [if_neg hbit] at hstk
        obtain ⟨h2, s2, hrun, hsafe2⟩ := yield_item_done bus (r.length + 9) u 10 _ hstk
          (Async.Safe.busReleaseS _ hsafe3 (by
            by_cases hbits : 0 < (n + 255) % 256
            · rw [if_pos hbits]; simp; omega
            · rw [if_neg hbits]; omega))
        exact ⟨h2, s2, h1.trans hrun, hsafe2⟩
  | readBitsS p r hr hlen ih =>
    intro s hst
    cases hx : Async.execOp bus Async.ReadRemainingBits { s with stack := p :: r } with
    | yield t u =>
      have hN : Async.isNext (Async.execOp bus Async.ReadRemainingBits { s with stack := p :: r }) = true := by
        simp [Async.execOp, isNext_ite, isNext_next, isNext_yield]
      rw [hx] at hN
      simp [Async.isNext] at hN
    | next u =>
      have h1 := doTimeslice_cons_next bus (r.length + 9) s _ _ hst u hx
      have hstk : u.stack =
          Async.Yield :: 8 ::
            (if (p + 1) % 256 % 8 = 0 then
              (if (p + 1) % 256 < 72 then
                Async.ReadRemainingBits :: (p + 1) % 256 :: r else r)
            else Async.ReadRemainingBits :: (p + 1) % 256 :: r) := by
        rw [stackAfter_of_next _ _ hx]
        simp [Async.execOp, stackAfter_ite, stackAfter_next, stackAfter_yield, DS_stack_ite, List_length_ite, le_ite_nat, ite_cons_same, ite_cons_head, Async.pop, Async.push, Async.pushSeq, Async.YieldFor, Async.pushSendOneByte, Async.pullBusLow, Async.releaseBus, Async.delayUs, Async.sampleBus,
        show ¬ 20 ≤ r.length from by omega,
        show ¬ 20 ≤ r.length + 1 from by omega,
        show ¬ 20 ≤ r.length + 2 from by omega,
        show ¬ 20 ≤ r.length + 3 from by omega,
        show ¬ 20 ≤ r.length + 1 + 1 from by omega,
        show ¬ 20 ≤ r.length + 2 + 1 from by omega,
        show ¬ 17 ≤ r.length from by omega,
        show ¬ 18 ≤ r.length from by omega,
        show ¬ 19 ≤ r.length from by omega]
      have hsafe3 : Async.Safe
          (if (p + 1) % 256 % 8 = 0 then
            (if (p + 1) % 256 < 72 then
              Async.ReadRemainingBits :: (p + 1) % 256 :: r else r)
          else Async.ReadRemainingBits :: (p + 1) % 256 :: r) := by
        by_cases h8 : (p + 1) % 256 % 8 = 0
        · rw [if_pos h8]
          by_cases h72 : (p + 1) % 256 < 72
          · rw [if_pos h72]
            exact Async.Safe.readBitsS _ r hr hlen
          · rw [if_neg h72]
            exact hr
        · rw [if_neg h8]
          exact Async.Safe.readBitsS _ r hr hlen
      obtain ⟨h2, s2, hrun, hsafe2⟩ := yield_item_done bus (r.length + 8) u 8 _ hstk hsafe3
      exact ⟨h2, s2, h1.trans hrun, hsafe2⟩
  | testS lo hi r hr hlen ih =>
    intro s hst
    cases hx : Async.execOp bus Async.TestTimings { s with stack := lo :: hi :: r } with
    | yield t u =>
      have hN : Async.isNext (Async.execOp bus Async.TestTimings { s with stack := lo :: hi :: r }) = true := by
        simp [Async.execOp, isNext_ite, isNext_next, isNext_yield]
      rw [hx] at hN
      simp [Async.isNext] at hN
    | next u =>
      have h1 := doTimeslice_cons_next bus (r.length + 10) s _ _ hst u hx
      have hstk : u.stack =
          Async.Yield ::
            (if (hi <<< 8 ||| lo) % 5 = 0 then 110
             else if (hi <<< 8 ||| lo) % 5 = 1 then 11
             else if (hi <<< 8 ||| lo) % 5 = 2 then 10 else 8) ::
            (if 1 < (hi <<< 8 ||| lo) then
              Async.TestTimings :: (((hi <<< 8 ||| lo) - 1) &&& 255) ::
                (((hi <<< 8 ||| lo) - 1) >>> 8) :: r
            else r) := by
        rw [stackAfter_of_next _ _ hx]
        simp [Async.execOp, stackAfter_ite, stackAfter_next, stackAfter_yield, DS_stack_ite, List_length_ite, le_ite_nat, ite_cons_same, ite_cons_head, Async.pop, Async.push, Async.pushSeq, Async.YieldFor, Async.pushSendOneByte, Async.pullBusLow, Async.releaseBus, Async.delayUs, Async.sampleBus,
        show ¬ 20 ≤ r.length from by omega,
        show ¬ 20 ≤ r.length + 1 from by omega,
        show ¬ 20 ≤ r.length + 2 from by omega,
        show ¬ 20 ≤ r.length + 3 from by omega,
        show ¬ 20 ≤ r.length + 4 from by omega,
        show ¬ 20 ≤ r.length + 1 + 1 from by omega,
        show ¬ 20 ≤ r.length + 2 + 1 from by omega,
        show ¬ 20 ≤ r.length + 3 + 1 from by omega,
        show ¬ 16 ≤ r.length from by omega,
        show ¬ 17 ≤ r.length from by omega,
        show ¬ 18 ≤ r.length from by omega,
        show ¬ 19 ≤ r.length from by omega]
      have hsafe3 : Async.Safe
          (if 1 < (hi <<< 8 ||| lo) then
            Async.TestTimings :: (((hi <<< 8 ||| lo) - 1) &&& 255) ::
              (((hi <<< 8 ||| lo) - 1) >>> 8) :: r
          else r) := by
        by_cases hbig : 1 < (hi <<< 8 ||| lo)
        · rw [if_pos hbig]
          exact Async.Safe.testS _ _ r hr hlen
        · rw [if_neg hbig]
          exact hr
      obtain ⟨h2, s2, hrun, hsafe2⟩ := yield_item_done bus (r.length + 9) u _ _ hstk hsafe3
      exact ⟨h2, s2, h1.trans hrun, hsafe2⟩
  | resetS r hr hlen ih =>
    intro s hst
    cases hx : Async.execOp bus Async.Reset { s with stack := r } with
    | yield t u =>
      have hN : Async.isNext (Async.execOp bus Async.Reset { s with stack := r }) = true := by
        simp [Async.execOp, isNext_ite, isNext_next, isNext_yield]
      rw [hx] at hN
      simp [Async.isNext] at hN
    | next u =>
      have h1 := doTimeslice_cons_next bus (r.length + 8) s _ _ hst u hx
      have hstk : u.stack = Async.BusLow :: Async.Yield :: 110 :: Async.BusRelease ::
          Async.Yield :: 11 :: Async.BusSample :: Async.Yield :: 96 :: r := by
        rw [stackAfter_of_next _ _ hx]
        simp [Async.execOp, stackAfter_ite, stackAfter_next, stackAfter_yield, DS_stack_ite, List_length_ite, le_ite_nat, ite_cons_same, ite_cons_head, Async.pop, Async.push, Async.pushSeq, Async.YieldFor, Async.pushSendOneByte, Async.pullBusLow, Async.releaseBus, Async.delayUs, Async.sampleBus,
        show ¬ 20 ≤ r.length from by omega,
        show ¬ 20 ≤ r.length + 1 from by omega,
        show ¬ 20 ≤ r.length + 2 from by omega,
        show ¬ 20 ≤ r.length + 3 from by omega,
        show ¬ 20 ≤ r.length + 4 from by omega,
        show ¬ 20 ≤ r.length + 5 from by omega,
        show ¬ 20 ≤ r.length + 6 from by omega,
        show ¬ 20 ≤ r.length + 7 from by omega,
        show ¬ 20 ≤ r.length + 8 from by omega,
        show ¬ 20 ≤ r.length + 1 + 1 from by omega,
        show ¬ 20 ≤ r.length + 2 + 1 from by omega,
        show ¬ 20 ≤ r.length + 3 + 1 from by omega,
        show ¬ 20 ≤ r.length + 4 + 1 from by omega,
        show ¬ 20 ≤ r.length + 5 + 1 from by omega,
        show ¬ 20 ≤ r.length + 6 + 1 from by omega,
        show ¬ 20 ≤ r.length + 7 + 1 from by omega,
        show ¬ 12 ≤ r.length from by omega,
        show ¬ 13 ≤ r.length from by omega,
        show ¬ 14 ≤ r.length from by omega,
        show ¬ 15 ≤ r.length from by omega,
        show ¬ 16 ≤ r.length from by omega,
        show ¬ 17 ≤ r.length from by omega,
        show ¬ 18 ≤ r.length from by omega,
        show ¬ 19 ≤ r.length from by omega]
      cases hx2 : Async.execOp bus Async.BusLow { u with stack := Async.Yield :: 110 :: Async.BusRelease :: Async.Yield :: 11 :: Async.BusSample :: Async.Yield :: 96 :: r } with
      | yield t2 u2 =>
        have hN : Async.isNext (Async.execOp bus Async.BusLow { u with stack := Async.Yield :: 110 :: Async.BusRelease :: Async.Yield :: 11 :: Async.BusSample :: Async.Yield :: 96 :: r }) = true := by
          simp [Async.execOp, isNext_ite, isNext_next, isNext_yield]
        rw [hx2] at hN
        simp [Async.isNext] at hN
      | next u2 =>
        have h2 := doTimeslice_cons_next bus (r.length + 7) u _ _ hstk u2 hx2
        have hstk2 : u2.stack = Async.Yield :: 110 :: Async.BusRelease :: Async.Yield ::
            11 :: Async.BusSample :: Async.Yield :: 96 :: r := by
          rw [stackAfter_of_next _ _ hx2]
          simp [Async.execOp, stackAfter_ite, stackAfter_next, stackAfter_yield, DS_stack_ite, List_length_ite, le_ite_nat, ite_cons_same, ite_cons_head, Async.pop, Async.push, Async.pushSeq, Async.YieldFor, Async.pushSendOneByte, Async.pullBusLow, Async.releaseBus, Async.delayUs, Async.sampleBus]
        obtain ⟨h3, s3, hrun, hsafe3⟩ := yield_item_done bus (r.length + 6) u2 110 _ hstk2
          (Async.Safe.busReleaseS _
            (Async.Safe.yieldS _ _
              (Async.Safe.busSampleS _
                (Async.Safe.yieldS _ _ hr (by omega))
                (by simp; omega))
              (by simp; omega))
            (by simp; omega))
        exact ⟨h3, s3, h1.trans (h2.trans hrun), hsafe3⟩
  | startIDS r hr hlen ih =>
    intro s hst
    cases hx : Async.execOp bus Async.StartIDSend { s with stack := r } with
    | yield t u =>
      have hN : Async.isNext (Async.execOp bus Async.StartIDSend { s with stack := r }) = true := by
        simp [Async.execOp, isNext_ite, isNext_next, isNext_yield]
      rw [hx] at hN
      simp [Async.isNext] at hN
    | next u =>
      have h1 := doTimeslice_cons_next bus (r.length + 8) s _ _ hst u hx
      have hstk : u.stack = Async.SendRemainingBits :: 8 :: 85 ::
          Async.SendRemainingIDBytes :: r := by
        rw [stackAfter_of_next _ _ hx]
        simp [Async.execOp, stackAfter_ite, stackAfter_next, stackAfter_yield, DS_stack_ite, List_length_ite, le_ite_nat, ite_cons_same, ite_cons_head, Async.pop, Async.push, Async.pushSeq, Async.YieldFor, Async.pushSendOneByte, Async.pullBusLow, Async.releaseBus, Async.delayUs, Async.sampleBus,
        show ¬ 20 ≤ r.length from by omega,
        show ¬ 20 ≤ r.length + 1 from by omega,
        show ¬ 20 ≤ r.length + 2 from by omega,
        show ¬ 20 ≤ r.length + 3 from by omega,
        show ¬ 20 ≤ r.length + 1 + 1 from by omega,
        show ¬ 20 ≤ r.length + 2 + 1 from by omega,
        show ¬ 17 ≤ r.length from by omega,
        show ¬ 18 ≤ r.length from by omega,
        show ¬ 19 ≤ r.length from by omega]
      cases hx2 : Async.execOp bus Async.SendRemainingBits { u with stack := 8 :: 85 :: Async.SendRemainingIDBytes :: r } with
      | yield t2 u2 =>
        have hN : Async.isNext (Async.execOp bus Async.SendRemainingBits { u with stack := 8 :: 85 :: Async.SendRemainingIDBytes :: r }) = true := by
          simp [Async.execOp, isNext_ite, isNext_next, isNext_yield]
        rw [hx2] at hN
        simp [Async.isNext] at hN
      | next u2 =>
        have h2 := doTimeslice_cons_next bus (r.length + 7) u _ _ hstk u2 hx2
        have hstk2 : u2.stack = Async.Yield :: 10 :: Async.SendRemainingBits :: 7 :: 42 ::
            Async.SendRemainingIDBytes :: r := by
          rw [stackAfter_of_next _ _ hx2]
          simp [Async.execOp, stackAfter_ite, stackAfter_next, stackAfter_yield, DS_stack_ite, List_length_ite, le_ite_nat, ite_cons_same, ite_cons_head, Async.pop, Async.push, Async.pushSeq, Async.YieldFor, Async.pushSendOneByte, Async.pullBusLow, Async.releaseBus, Async.delayUs, Async.sampleBus,
        show ¬ 20 ≤ r.length from by omega,
        show ¬ 20 ≤ r.length + 1 from by omega,
        show ¬ 20 ≤ r.length + 2 from by omega,
        show ¬ 20 ≤ r.length + 3 from by omega,
        show ¬ 20 ≤ r.length + 4 from by omega,
        show ¬ 20 ≤ r.length + 5 from by omega,
        show ¬ 20 ≤ r.length + 6 from by omega,
        show ¬ 20 ≤ r.length + 1 + 1 from by omega,
        show ¬ 20 ≤ r.length + 2 + 1 from by omega,
        show ¬ 20 ≤ r.length + 3 + 1 from by omega,
        show ¬ 20 ≤ r.length + 4 + 1 from by omega,
        show ¬ 20 ≤ r.length + 5 + 1 from by omega,
        show ¬ 14 ≤ r.length from by omega,
        show ¬ 15 ≤ r.length from by omega,
        show ¬ 16 ≤ r.length from by omega,
        show ¬ 17 ≤ r.length from by omega,
        show ¬ 18 ≤ r.length from by omega,
        show ¬ 19 ≤ r.length from by omega]
        obtain ⟨h3, s3, hrun, hsafe3⟩ := yield_item_done bus (r.length + 6) u2 10 _ hstk2
          (Async.Safe.sendBitsS _ _ _
            (Async.Safe.sendIDS r hr hlen) (by simp; omega))
        exact ⟨h3, s3, h1.trans (h2.trans hrun), hsafe3⟩
  | sendIDS r hr hlen ih =>
    intro s hst
    cases hx : Async.execOp bus Async.SendRemainingIDBytes { s with stack := r } with
    | yield t u =>
      have hN : Async.isNext (Async.execOp bus Async.SendRemainingIDBytes { s with stack := r }) = true := by
        simp [Async.execOp, isNext_ite, isNext_next, isNext_yield]
      rw [hx] at hN
      simp [Async.isNext] at hN
    | next u =>
      have h1 := doTimeslice_cons_next bus (r.length + 8) s _ _ hst u hx
      have hstk : u.stack =
          if s.idByteIndex < 8 then
            Async.SendRemainingBits :: 8 :: s.deviceAddr.getD s.idByteIndex 0 ::
              Async.SendRemainingIDBytes :: r
          else r := by
        rw [stackAfter_of_next _ _ hx]
        simp [Async.execOp, stackAfter_ite, stackAfter_next, stackAfter_yield, DS_stack_ite, List_length_ite, le_ite_nat, ite_cons_same, ite_cons_head, Async.pop, Async.push, Async.pushSeq, Async.YieldFor, Async.pushSendOneByte, Async.pullBusLow, Async.releaseBus, Async.delayUs, Async.sampleBus,
        show ¬ 20 ≤ r.length from by omega,
        show ¬ 20 ≤ r.length + 1 from by omega,
        show ¬ 20 ≤ r.length + 2 from by omega,
        show ¬ 20 ≤ r.length + 3 from by omega,
        show ¬ 20 ≤ r.length + 1 + 1 from by omega,
        show ¬ 20 ≤ r.length + 2 + 1 from by omega,
        show ¬ 17 ≤ r.length from by omega,
        show ¬ 18 ≤ r.length from by omega,
        show ¬ 19 ≤ r.length from by omega]
      by_cases hidx : s.idByteIndex < 8
      · rw [if_pos hidx] at hstk
        cases hx2 : Async.execOp bus Async.SendRemainingBits { u with stack := 8 :: s.deviceAddr.getD s.idByteIndex 0 :: Async.SendRemainingIDBytes :: r } with
        | yield t2 u2 =>
          have hN : Async.isNext (Async.execOp bus Async.SendRemainingBits { u with stack := 8 :: s.deviceAddr.getD s.idByteIndex 0 :: Async.SendRemainingIDBytes :: r }) = true := by
            simp [Async.execOp, isNext_ite, isNext_next, isNext_yield]
          rw [hx2] at hN
          simp [Async.isNext] at hN
        | next u2 =>
          have h2 := doTimeslice_cons_next bus (r.length + 7) u _ _ hstk u2 hx2
          have hstk2 : u2.stack =
              if s.deviceAddr.getD s.idByteIndex 0 &&& 1 = 1 then
                Async.Yield :: 10 :: Async.SendRemainingBits :: 7 ::
                  s.deviceAddr.getD s.idByteIndex 0 >>> 1 ::
                  Async.SendRemainingIDBytes :: r
              else
                Async.Yield :: 10 :: Async.BusRelease :: Async.SendRemainingBits :: 7 ::
                  s.deviceAddr.getD s.idByteIndex 0 >>> 1 ::
                  Async.SendRemainingIDBytes :: r := by
            rw [stackAfter_of_next _ _ hx2]
            simp [Async.execOp, stackAfter_ite, stackAfter_next, stackAfter_yield, DS_stack_ite, List_length_ite, le_ite_nat, ite_cons_same, ite_cons_head, Async.pop, Async.push, Async.pushSeq, Async.YieldFor, Async.pushSendOneByte, Async.pullBusLow, Async.releaseBus, Async.delayUs, Async.sampleBus,
        show ¬ 20 ≤ r.length from by omega,
        show ¬ 20 ≤ r.length + 1 from by omega,
        show ¬ 20 ≤ r.length + 2 from by omega,
        show ¬ 20 ≤ r.length + 3 from by omega,
        show ¬ 20 ≤ r.length + 4 from by omega,
        show ¬ 20 ≤ r.length + 5 from by omega,
        show ¬ 20 ≤ r.length + 6 from by omega,
        show ¬ 20 ≤ r.length + 1 + 1 from by omega,
        show ¬ 20 ≤ r.length + 2 + 1 from by omega,
        show ¬ 20 ≤ r.length + 3 + 1 from by omega,
        show ¬ 20 ≤ r.length + 4 + 1 from by omega,
        show ¬ 20 ≤ r.length + 5 + 1 from by omega,
        show ¬ 14 ≤ r.length from by omega,
        show ¬ 15 ≤ r.length from by omega,
        show ¬ 16 ≤ r.length from by omega,
        show ¬ 17 ≤ r.length from by omega,
        show ¬ 18 ≤ r.length from by omega,
        show ¬ 19 ≤ r.length from by omega]
          have hsafe4 : Async.Safe (Async.SendRemainingBits :: 7 ::
              s.deviceAddr.getD s.idByteIndex 0 >>> 1 ::
              Async.SendRemainingIDBytes :: r) :=
            Async.Safe.sendBitsS _ _ _ (Async.Safe.sendIDS r hr hlen) (by simp; omega)
          by_cases hbit : s.deviceAddr.getD s.idByteIndex 0 &&& 1 = 1
          · rw [if_pos hbit] at hstk2
            obtain ⟨h3, s3, hrun, hsafe3⟩ := yield_item_done bus (r.length + 6) u2 10 _
              hstk2 hsafe4
            exact ⟨h3, s3, h1.trans (h2.trans hrun), hsafe3⟩
          · rw [if_neg hbit] at hstk2
            obtain ⟨h3, s3, hrun, hsafe3⟩ := yield_item_done bus (r.length + 6) u2 10 _
              hstk2 (Async.Safe.busReleaseS _ hsafe4 (by simp; omega))
            exact ⟨h3, s3, h1.trans (h2.trans hrun), hsafe3⟩
      · rw [if_neg hidx] at hstk
        obtain ⟨h2, s2, hrun, hsafe2⟩ := ih u hstk
        exact ⟨h2, s2, h1.trans hrun, hsafe2⟩
  | readPadS r hr hlen ih =>
    intro s hst
    cases hx : Async.execOp bus Async.ReadScratchPad { s with stack := r } with
    | yield t u =>
      have hN : Async.isNext (Async.execOp bus Async.ReadScratchPad { s with stack := r }) = true := by
        simp [Async.execOp, isNext_ite, isNext_next, isNext_yield]
      rw [hx] at hN
      simp [Async.isNext] at hN
    | next u =>
      have h1 := doTimeslice_cons_next bus (r.length + 8) s _ _ hst u hx
      have hstk : u.stack = Async.Reset :: Async.StartIDSend :: Async.SendRemainingBits ::
          8 :: 190 :: Async.ReadRemainingBits :: 0 :: Async.Reset :: r := by
        rw [stackAfter_of_next _ _ hx]
        simp [Async.execOp, stackAfter_ite, stackAfter_next, stackAfter_yield, DS_stack_ite, List_length_ite, le_ite_nat, ite_cons_same, ite_cons_head, Async.pop, Async.push, Async.pushSeq, Async.YieldFor, Async.pushSendOneByte, Async.pullBusLow, Async.releaseBus, Async.delayUs, Async.sampleBus,
        show ¬ 20 ≤ r.length from by omega,
        show ¬ 20 ≤ r.length + 1 from by omega,
        show ¬ 20 ≤ r.length + 2 from by omega,
        show ¬ 20 ≤ r.length + 3 from by omega,
        show ¬ 20 ≤ r.length + 4 from by omega,
        show ¬ 20 ≤ r.length + 5 from by omega,
        show ¬ 20 ≤ r.length + 6 from by omega,
        show ¬ 20 ≤ r.length + 7 from by omega,
        show ¬ 20 ≤ r.length + 1 + 1 from by omega,
        show ¬ 20 ≤ r.length + 2 + 1 from by omega,
        show ¬ 20 ≤ r.length + 3 + 1 from by omega,
        show ¬ 20 ≤ r.length + 4 + 1 from by omega,
        show ¬ 20 ≤ r.length + 5 + 1 from by omega,
        show ¬ 20 ≤ r.length + 6 + 1 from by omega,
        show ¬ 13 ≤ r.length from by omega,
        show ¬ 14 ≤ r.length from by omega,
        show ¬ 15 ≤ r.length from by omega,
        show ¬ 16 ≤ r.length from by omega,
        show ¬ 17 ≤ r.length from by omega,
        show ¬ 18 ≤ r.length from by omega,
        show ¬ 19 ≤ r.length from by omega]
      cases hx2 : Async.execOp bus Async.Reset { u with stack := Async.StartIDSend :: Async.SendRemainingBits :: 8 :: 190 :: Async.ReadRemainingBits :: 0 :: Async.Reset :: r } with
      | yield t2 u2 =>
        have hN : Async.isNext (Async.execOp bus Async.Reset { u with stack := Async.StartIDSend :: Async.SendRemainingBits :: 8 :: 190 :: Async.ReadRemainingBits :: 0 :: Async.Reset :: r }) = true := by
          simp [Async.execOp, isNext_ite, isNext_next, isNext_yield]
        rw [hx2] at hN
        simp [Async.isNext] at hN
      | next u2 =>
        have h2 := doTimeslice_cons_next bus (r.length + 7) u _ _ hstk u2 hx2
        have hstk2 : u2.stack = Async.BusLow :: Async.Yield :: 110 :: Async.BusRelease ::
            Async.Yield :: 11 :: Async.BusSample :: Async.Yield :: 96 ::
            Async.StartIDSend :: Async.SendRemainingBits :: 8 :: 190 ::
            Async.ReadRemainingBits :: 0 :: Async.Reset :: r := by
          rw [stackAfter_of_next _ _ hx2]
          simp [Async.execOp, stackAfter_ite, stackAfter_next, stackAfter_yield, DS_stack_ite, List_length_ite, le_ite_nat, ite_cons_same, ite_cons_head, Async.pop, Async.push, Async.pushSeq, Async.YieldFor, Async.pushSendOneByte, Async.pullBusLow, Async.releaseBus, Async.delayUs, Async.sampleBus,
        show ¬ 20 ≤ r.length from by omega,
        show ¬ 20 ≤ r.length + 1 from by omega,
        show ¬ 20 ≤ r.length + 2 from by omega,
        show ¬ 20 ≤ r.length + 3 from by omega,
        show ¬ 20 ≤ r.length + 4 from by omega,
        show ¬ 20 ≤ r.length + 5 from by omega,
        show ¬ 20 ≤ r.length + 6 from by omega,
        show ¬ 20 ≤ r.length + 7 from by omega,
        show ¬ 20 ≤ r.length + 8 from by omega,
        show ¬ 20 ≤ r.length + 9 from by omega,
        show ¬ 20 ≤ r.length + 10 from by omega,
        show ¬ 20 ≤ r.length + 11 from by omega,
        show ¬ 20 ≤ r.length + 12 from by omega,
        show ¬ 20 ≤ r.length + 13 from by omega,
        show ¬ 20 ≤ r.length + 14 from by omega,
        show ¬ 20 ≤ r.length + 15 from by omega,
        show ¬ 20 ≤ r.length + 1 + 1 from by omega,
        show ¬ 20 ≤ r.length + 2 + 1 from by omega,
        show ¬ 20 ≤ r.length + 3 + 1 from by omega,
        show ¬ 20 ≤ r.length + 4 + 1 from by omega,
        show ¬ 20 ≤ r.length + 5 + 1 from by omega,
        show ¬ 20 ≤ r.length + 6 + 1 from by omega,
        show ¬ 20 ≤ r.length + 7 + 1 from by omega,
        show ¬ 20 ≤ r.length + 8 + 1 from by omega,
        show ¬ 20 ≤ r.length + 9 + 1 from by omega,
        show ¬ 20 ≤ r.length + 10 + 1 from by omega,
        show ¬ 20 ≤ r.length + 11 + 1 from by omega,
        show ¬ 20 ≤ r.length + 12 + 1 from by omega,
        show ¬ 20 ≤ r.length + 13 + 1 from by omega,
        show ¬ 20 ≤ r.length + 14 + 1 from by omega,
        show ¬ 5 ≤ r.length from by omega,
        show ¬ 6 ≤ r.length from by omega,
        show ¬ 7 ≤ r.length from by omega,
        show ¬ 8 ≤ r.length from by omega,
        show ¬ 9 ≤ r.length from by omega,
        show ¬ 10 ≤ r.length from by omega,
        show ¬ 11 ≤ r.length from by omega,
        show ¬ 12 ≤ r.length from by omega,
        show ¬ 13 ≤ r.length from by omega,
        show ¬ 14 ≤ r.length from by omega,
        show ¬ 15 ≤ r.length from by omega,
        show ¬ 16 ≤ r.length from by omega,
        show ¬ 17 ≤ r.length from by omega,
        show ¬ 18 ≤ r.length from by omega,
        show ¬ 19 ≤ r.length from by omega]
        cases hx3 : Async.execOp bus Async.BusLow { u2 with stack := Async.Yield :: 110 :: Async.BusRelease :: Async.Yield :: 11 :: Async.BusSample :: Async.Yield :: 96 :: Async.StartIDSend :: Async.SendRemainingBits :: 8 :: 190 :: Async.ReadRemainingBits :: 0 :: Async.Reset :: r } with
        | yield t3 u3 =>
          have hN : Async.isNext (Async.execOp bus Async.BusLow { u2 with stack := Async.Yield :: 110 :: Async.BusRelease :: Async.Yield :: 11 :: Async.BusSample :: Async.Yield :: 96 :: Async.StartIDSend :: Async.SendRemainingBits :: 8 :: 190 :: Async.ReadRemainingBits :: 0 :: Async.Reset :: r }) = true := by
            simp [Async.execOp, isNext_ite, isNext_next, isNext_yield]
          rw [hx3] at hN
          simp [Async.isNext] at hN
        | next u3 =>
          have h3 := doTimeslice_cons_next bus (r.length + 6) u2 _ _ hstk2 u3 hx3
          have hstk3 : u3.stack = Async.Yield :: 110 :: Async.BusRelease :: Async.Yield ::
              11 :: Async.BusSample :: Async.Yield :: 96 :: Async.StartIDSend ::
              Async.SendRemainingBits :: 8 :: 190 :: Async.ReadRemainingBits :: 0 ::
              Async.Reset :: r := by
            rw [stackAfter_of_next _ _ hx3]
            simp [Async.execOp, stackAfter_ite, stackAfter_next, stackAfter_yield, DS_stack_ite, List_length_ite, le_ite_nat, ite_cons_same, ite_cons_head, Async.pop, Async.push, Async.pushSeq, Async.YieldFor, Async.pushSendOneByte, Async.pullBusLow, Async.releaseBus, Async.delayUs, Async.sampleBus]
          obtain ⟨h4, s4, hrun, hsafe4⟩ := yield_item_done bus (r.length + 5) u3 110 _ hstk3
            (Async.Safe.busReleaseS _
              (Async.Safe.yieldS _ _
                (Async.Safe.busSampleS _
                  (Async.Safe.yieldS _ _
                    (Async.Safe.startIDS _
                      (Async.Safe.sendBitsS _ _ _
                        (Async.Safe.readBitsS _ _
                          (Async.Safe.resetS r hr (by omega))
                          (by simp; omega))
                        (by simp; omega))
                      (by simp; omega))
                    (by simp; omega))
                  (by simp; omega))
                (by simp; omega))
              (by simp; omega))
          exact ⟨h4, s4, h1.trans (h2.trans (h3.trans hrun)), hsafe4⟩

/-- Every state reachable through the public session calls and timer ticks
has a well-formed stack. -/
theorem reachable_safe : ∀ s : Async.DS, Async.Reachable s → Async.Safe s.stack := by
  intro s h
  induction h with
  | ofReset s0 =>
    have hst : (Async.resetAsync s0).stack = [Async.Reset, Async.ClearBusyStatus] := by
      simp [Async.resetAsync, Async.pushSeq, Async.push, Async.flushStack]
    rw [hst]
    exact Async.Safe.resetS _ (Async.Safe.clearBusyS _ Async.Safe.nilS (by simp)) (by simp)
  | ofRead a b s0 =>
    have hst : (Async.readScratchpadAsync a b s0).stack =
        [Async.ReadScratchPad, Async.ClearBusyStatus] := by
      simp [Async.readScratchpadAsync, Async.pushSeq, Async.push, Async.flushStack]
    rw [hst]
    exact Async.Safe.readPadS _ (Async.Safe.clearBusyS _ Async.Safe.nilS (by simp)) (by simp)
  | ofConvert s0 =>
    have hst : (Async.convertAllTemperaturesAsync s0).stack =
        [Async.Reset, Async.SendRemainingBits, 8, Async.SKIPROMWILDCARD,
         Async.SendRemainingBits, 8, Async.STARTCONVO, Async.WaitForBusRelease] := by
      simp [Async.convertAllTemperaturesAsync, Async.pushSeq, Async.push,
            Async.pushSendOneByte, Async.flushStack]
    rw [hst]
    exact Async.Safe.resetS _
      (Async.Safe.sendBitsS _ _ _
        (Async.Safe.sendBitsS _ _ _
          (Async.Safe.waitS _ Async.Safe.nilS (by simp)) (by simp)) (by simp)) (by simp)
  | ofTest n s0 =>
    have hst : (Async.doTestTimings n s0).stack =
        [Async.TestTimings, n &&& 255, (n >>> 8) % 256, Async.BusRelease,
         Async.ClearBusyStatus] := by
      simp [Async.doTestTimings, Async.pushSeq, Async.push, Async.flushStack]
    rw [hst]
    exact Async.Safe.testS _ _ _
      (Async.Safe.busReleaseS _
        (Async.Safe.clearBusyS _ Async.Safe.nilS (by simp)) (by simp)) (by simp)
  | ofTick bus fuel hold s0 s1 hreach hts ih =>
    obtain ⟨h2, s2, hrun, hsafe2⟩ := safe_step bus s0.stack ih s0 rfl
    have hdet : (hold, s1) = (h2, s2) := by
      rcases Nat.le_total fuel (s0.stack.length + 8) with hle | hle
      · have hmax := doTimeslice_mono bus fuel (s0.stack.length + 8) s0 _ hts hle
        exact Option.some_injective _ (hmax.symm.trans hrun)
      · have hmax := doTimeslice_mono bus (s0.stack.length + 8) fuel s0 _ hrun hle
        exact Option.some_injective _ (hts.symm.trans hmax)
    have hs12 : s1 = s2 := congrArg Prod.snd hdet
    rw [hs12]
    exact hsafe2

/-- C10: every call to `doTimeslice` terminates from any reachable state:
the loop returns after at most `stack.length + 8` iterations (the fuel
bound suffices), because each iteration pops one opcode and every
self-re-pushing opcode (SendRemainingBits, ReadRemainingBits,
WaitForBusRelease, TestTimings) pushes a Yield above itself, so the loop
reaches an empty stack or a Yield within a bounded number of iterations. -/
theorem claim10_doTimeslice_terminates (bus : Nat → Bool) (s : Async.DS)
    (h : Async.Reachable s) :
    ∃ hold s1, Async.doTimeslice bus (s.stack.length + 8) s = some (hold, s1) := by
  obtain ⟨hold, s1, hrun, _⟩ := safe_step bus s.stack (reachable_safe s h) s rfl
  exact ⟨hold, s1, hrun⟩

/-- Witness for C10 at the state left by `resetAsync` from the quiescent
state, on the always-present bus. -/
theorem claim10_doTimeslice_terminates_witness :
    ∃ hold s1, Async.doTimeslice Async.busPresent
        ((Async.resetAsync Async.initState).stack.length + 8)
        (Async.resetAsync Async.initState) = some (hold, s1) :=
  claim10_doTimeslice_terminates Async.busPresent (Async.resetAsync Async.initState)
    (Async.Reachable.ofReset Async.initState)
